import Mathlib

/-!
Verification of the log-troubleshooting assistant's retrieval core.

This file shallowly embeds the Python sources of the repository:
  * `src/services/vector_store_flexible.py`  (`FlexibleVectorStore`)
  * `src/services/vector_store.py`           (`VectorStore`, FAISS-only)
  * `src/services/knowledge_base.py`         (`KnowledgeBase`)
  * `src/services/rag_engine.py`             (`RAGEngine`)
  * `src/utils/parser.py`                    (`LogParser`)

Floating-point numbers are modelled as real numbers.  External libraries
(faiss, annoy, scikit-learn, numpy, the sentence-transformer encoder) are
modelled by their documented contracts; where a claim depends only on
result counts, the approximate-search routines of annoy and scikit-learn
are abstracted into function parameters constrained by hypotheses stating
their library contracts.
-/

namespace LogRCA

/-! ### Python string and list primitives -/

/-- Python's whitespace class, as used by `str.strip()` and the regex
class `\s` (ASCII range). -/
def pyIsSpace (c : Char) : Bool :=
  c = ' ' || c = '\t' || c = '\n' || c = '\r' || c = '\x0b' || c = '\x0c'

/-- Python `str.strip()` on a character list: drop whitespace at both ends. -/
def pyStripChars (l : List Char) : List Char :=
  ((l.dropWhile pyIsSpace).reverse.dropWhile pyIsSpace).reverse

/-- Membership of `needle` as a contiguous sublist of the argument.  This is
Python's `in` operator on strings, applied to character lists. -/
def listInfix (needle : List Char) : List Char → Bool
  | [] => needle.isEmpty
  | a :: rest => needle.isPrefixOf (a :: rest) || listInfix needle rest

/-- Python's `sub in s` substring test. -/
def strIn (sub s : String) : Bool := listInfix sub.toList s.toList

/-- Split a character list at every character satisfying `p`, keeping
empty pieces (the behaviour of Python `str.split` with an explicit
separator, here generalized to a predicate). -/
def splitOnP (p : Char → Bool) : List Char → List (List Char)
  | [] => [[]]
  | c :: rest =>
    let r := splitOnP p rest
    if p c then [] :: r
    else match r with
      | [] => [[c]]
      | h :: t => (c :: h) :: t

/-- Python `s.split(sep)` for a one-character separator, as used with
`'\n'` by the engine. -/
def pySplitLines (s : String) : List String :=
  (splitOnP (fun c => c = '\n') s.toList).map String.mk

/-- Python `str.lower()` (ASCII case mapping). -/
def pyLower (s : String) : String := String.mk (s.toList.map Char.toLower)

/-- Python `str.split()` with no argument: split on whitespace runs and
drop the empty pieces. -/
def pySplitWs (s : String) : List String :=
  ((splitOnP pyIsSpace s.toList).filter (fun w => !w.isEmpty)).map String.mk

/-- Stable insertion into a sorted list: `x` is placed before the first
element `y` such that `keep x y` holds, where `keep x y` means "`x` may
come before `y`". -/
def insOrd (keep : α → α → Bool) (x : α) : List α → List α
  | [] => [x]
  | y :: ys => if keep x y then x :: y :: ys else y :: insOrd keep x ys

/-- Stable insertion sort with respect to the `keep` comparator.  An
element earlier in the input is inserted into the sorted suffix and passes
over every element it is not allowed to precede, so two elements on which
`keep` holds both ways retain their input order. -/
def sortOrd (keep : α → α → Bool) : List α → List α
  | [] => []
  | x :: xs => insOrd keep x (sortOrd keep xs)

/-- Model of `np.argsort` on a list of similarity scores: the indices that
stably sort the values in ascending order.  NumPy's default sort is
introsort, which agrees with a stable sort on the small arrays appearing
here (it switches to insertion sort below 16 elements); no claim in scope
depends on the tie order of larger arrays. -/
noncomputable def pyArgsortAsc (l : List ℝ) : List ℕ :=
  (sortOrd (fun x y : ℕ × ℝ => decide (x.2 ≤ y.2)) l.enum).map (fun p => p.1)

/-- Python's slice `l[-k:]`. Since `-0` is `0`, the slice with `k = 0` is
`l[0:]`, i.e. the whole list — not the empty list. -/
def pyLastSlice (l : List α) (k : ℕ) : List α :=
  if k = 0 then l else l.drop (l.length - k)

/-! ### Metadata values (opaque dictionary entries) -/

/-- Values stored in a metadata dictionary.  `vnone` is Python's `None`,
which is also the default of `dict.get` for a missing key. -/
inductive Val where
  | vnone
  | vstr (s : String)
  | vnat (n : ℕ)
  | vstrs (l : List String)
  deriving DecidableEq

/-- A metadata dictionary, as an association list. -/
abbrev Metadata := List (String × Val)

/-- Python `metadata.get(key)` (default `None`). -/
def mget (m : Metadata) (k : String) : Val :=
  match m.find? (fun p => p.1 = k) with
  | some p => p.2
  | none => .vnone

/-! ### Embedding service

`EmbeddingService.encode` (src/services/embedding_service.py) returns a
2-D numpy array: one fixed-dimension vector per text, deterministic for a
given model.  It is modelled as an arbitrary function into vectors of a
fixed dimension. -/

structure EmbSvc where
  dim : ℕ
  f : String → List ℝ
  hf : ∀ t, (f t).length = dim

/-! ### FlexibleVectorStore state -/

/-- A FAISS `IndexFlatL2`: the dimension it was created with and the dense
list of stored vectors; `ntotal` is the length of that list. -/
structure FaissIdx where
  dim : ℕ
  vecs : List (List ℝ)
  deriving Inhabited

/-- An `annoy.AnnoyIndex`.  Only the fields the claims observe are kept:
`get_n_items()` (which is one more than the largest item id ever added)
and the built flag.  Once `build()` has run, `add_item` and `build` both
raise; the stored vectors themselves are abstracted into the query
function passed to `searchFlex`. -/
structure AnnoyIdx where
  dim : ℕ
  nItems : ℕ
  built : Bool
  deriving Inhabited

/-- A fitted `sklearn.neighbors.NearestNeighbors` object (brute-force,
cosine metric): it retains the matrix it was last fitted on. -/
structure SkIdx where
  fitX : List (List ℝ)
  deriving Inhabited

/-- The dynamically-typed `self.index` attribute of `FlexibleVectorStore`. -/
inductive IndexObj where
  | fIdx (f : FaissIdx)
  | aIdx (a : AnnoyIdx)
  | sIdx (s : SkIdx)
  | nIdx (m : List (List ℝ))

/-- The four candidate backends, in the priority order of `_init_backend`. -/
inductive Backend where
  | faiss
  | annoy
  | sklearn
  | numpy
  deriving DecidableEq, Fintype

/-- In-memory state of a `FlexibleVectorStore`.  `skEmb` is the
`self.embeddings` attribute which `_add_sklearn` sets dynamically; `none`
means the attribute is absent (as on a freshly constructed store), in
which case reading it raises `AttributeError` in Python. -/
structure Store where
  index : Option IndexObj
  metadata : List Metadata
  dimension : Option ℕ
  backend : Backend
  skEmb : Option (List (List ℝ))

/-- A freshly constructed store whose backend probe selected `b` and for
which no persisted index file existed. -/
def freshStore (b : Backend) : Store :=
  { index := none, metadata := [], dimension := none, backend := b, skEmb := none }

/-! ### Persistence (`save_index` / `load_index`)

`save_index` pickles exactly the four entries below; notably the
`self.embeddings` attribute used by the sklearn backend is **not** part of
the pickle.  Serialization itself is modelled as the identity. -/

structure SavedData where
  index : Option IndexObj
  metadata : List Metadata
  dimension : Option ℕ
  backend : Backend

/-- `FlexibleVectorStore.save_index`: the dictionary written to disk. -/
def saveIndex (st : Store) : SavedData :=
  { index := st.index, metadata := st.metadata, dimension := st.dimension,
    backend := st.backend }

/-- `FlexibleVectorStore.load_index`: if an index file exists its four
entries overwrite the in-memory fields (`backend` falls back to the
current one only when missing from the dict, which `saveIndex` never
produces); otherwise the index is reset.  The `skEmb` attribute is not
touched. -/
def loadIndex (st : Store) (file : Option SavedData) : Store :=
  match file with
  | some d => { st with index := d.index, metadata := d.metadata,
                        dimension := d.dimension, backend := d.backend }
  | none => { st with index := none, metadata := [] }

/-! ### Adding documents -/

/-- The loop `for i, embedding in enumerate(embeddings): self.index.add_item(i, ...)`
of `_add_annoy`, against the annoy contract: adding to a built index
raises. -/
def addAnnoyItems (a : AnnoyIdx) : List (ℕ × List ℝ) → Except String AnnoyIdx
  | [] => .ok a
  | (i, _) :: rest =>
    if a.built then .error "You can't add an item to a built index"
    else addAnnoyItems { a with nItems := max a.nItems (i + 1) } rest

/-- `AnnoyIndex.build`: freezes the index; building twice raises. -/
def annoyBuild (a : AnnoyIdx) : Except String AnnoyIdx :=
  if a.built then .error "You can't build a built index"
  else .ok { a with built := true }

/-- `FlexibleVectorStore._add_faiss`.  A wrong-typed `self.index` has no
`add` method and a dimension mismatch trips the faiss assertion. -/
def addFaiss (st : Store) (embs : List (List ℝ)) (dim : ℕ) : Except String Store :=
  match st.index with
  | none => .ok { st with index := some (.fIdx { dim := dim, vecs := embs }) }
  | some (.fIdx f) =>
    if f.dim = dim then
      .ok { st with index := some (.fIdx { dim := f.dim, vecs := f.vecs ++ embs }) }
    else .error "faiss assertion d == self.d failed"
  | some _ => .error "AttributeError: object has no attribute add"

/-- `FlexibleVectorStore._add_annoy`: create the index if absent, then
`add_item` starting from id 0 (also on a non-empty index) and `build`. -/
def addAnnoy (st : Store) (embs : List (List ℝ)) (dim : ℕ) : Except String Store :=
  match st.index with
  | none =>
    match (addAnnoyItems { dim := dim, nItems := 0, built := false } embs.enum).bind annoyBuild with
    | .ok a => .ok { st with index := some (.aIdx a) }
    | .error e => .error e
  | some (.aIdx a) =>
    match (addAnnoyItems a embs.enum).bind annoyBuild with
    | .ok a2 => .ok { st with index := some (.aIdx a2) }
    | .error e => .error e
  | some _ => .error "AttributeError: object has no attribute add_item"

/-- `FlexibleVectorStore._add_sklearn`: first call fits a fresh estimator
on the batch and sets `self.embeddings`; later calls stack the batch onto
`self.embeddings` and refit.  Reading a missing `self.embeddings`
attribute raises. -/
def addSklearn (st : Store) (embs : List (List ℝ)) : Except String Store :=
  match st.index with
  | none => .ok { st with index := some (.sIdx { fitX := embs }), skEmb := some embs }
  | some (.sIdx _) =>
    match st.skEmb with
    | none => .error "AttributeError: object has no attribute embeddings"
    | some e => .ok { st with index := some (.sIdx { fitX := e ++ embs }),
                              skEmb := some (e ++ embs) }
  | some _ => .error "AttributeError: object has no attribute fit"

/-- `FlexibleVectorStore._add_numpy`: start or `np.vstack` the matrix. -/
def addNumpy (st : Store) (embs : List (List ℝ)) : Except String Store :=
  match st.index with
  | none => .ok { st with index := some (.nIdx embs) }
  | some (.nIdx m) => .ok { st with index := some (.nIdx (m ++ embs)) }
  | some _ => .error "TypeError: np.vstack on a non-array index"

/-- `FlexibleVectorStore.add_documents`: no-op on an empty batch; encode,
record the batch dimension, dispatch on the active backend, then extend
the metadata list and persist (persistence is an I/O effect with no
in-memory change).  An exception in the backend step propagates before the
metadata list is extended. -/
def addDocuments (es : EmbSvc) (st : Store) (texts : List String)
    (metas : List Metadata) : Except String Store :=
  match texts with
  | [] => .ok st
  | t0 :: _ =>
    let embs := texts.map es.f
    let dim := (es.f t0).length
    let st1 : Store := { st with dimension := some dim }
    let afterBackend : Except String Store :=
      match st1.backend with
      | .faiss => addFaiss st1 embs dim
      | .annoy => addAnnoy st1 embs dim
      | .sklearn => addSklearn st1 embs
      | .numpy => addNumpy st1 embs
    afterBackend.map (fun st2 => { st2 with metadata := st2.metadata ++ metas })

/-- `FlexibleVectorStore.size`.  In the mismatched-variant cases Python
would raise (`ntotal`/`get_n_items`/`len` on an object of the wrong type);
those states are unreachable and are given the value 0 here. -/
def size (st : Store) : ℕ :=
  match st.backend with
  | .faiss => match st.index with
    | some (.fIdx f) => f.vecs.length
    | _ => 0
  | .annoy => match st.index with
    | some (.aIdx a) => a.nItems
    | _ => 0
  | .sklearn => match st.skEmb with
    | some e => e.length
    | none => 0
  | .numpy => match st.index with
    | some (.nIdx m) => m.length
    | _ => 0

/-! ### Searching -/

/-- Dot product of two vectors (`np.dot` on equal-length vectors). -/
def dotProd (a b : List ℝ) : ℝ := ((a.zip b).map (fun p => p.1 * p.2)).sum

/-- `np.linalg.norm`: the Euclidean norm. -/
noncomputable def normR (v : List ℝ) : ℝ := Real.sqrt ((v.map (fun x => x ^ 2)).sum)

/-- Squared Euclidean distance, the metric of `faiss.IndexFlatL2`. -/
def sqDist (a b : List ℝ) : ℝ := ((a.zip b).map (fun p => (p.1 - p.2) ^ 2)).sum

/-- The per-row similarity loop of `_search_numpy`: cosine similarity,
with similarity 0 whenever the query or the document has zero norm. -/
noncomputable def numpySims (qv : List ℝ) (docs : List (List ℝ)) : List ℝ :=
  docs.map (fun d =>
    if normR qv = 0 ∨ normR d = 0 then 0
    else dotProd qv d / (normR qv * normR d))

/-- Truthiness test of `if filter_metadata:`: `None` and the empty dict
are falsy, so filtering is skipped for them. -/
def filterActive : Option Metadata → Bool
  | none => false
  | some f => !f.isEmpty

/-- The `all(metadata.get(key) == value ...)` check of `_format_results`.
For the falsy filters this is vacuously `true`, matching the skipped
check. -/
def passesFilter (md : Metadata) : Option Metadata → Bool
  | none => true
  | some f => f.all (fun kv => decide (mget md kv.1 = kv.2))

/-- `FlexibleVectorStore._format_results`: walk the `(score, idx)` pairs,
silently drop every index that is out of range for the metadata list,
reject filter mismatches, and finally sort descending by score with
Python's stable `sorted(..., reverse=True)`. -/
noncomputable def formatResults (meta : List Metadata) (scores : List ℝ)
    (indices : List ℕ) (filt : Option Metadata) : List (ℝ × Metadata) :=
  let results := (scores.zip indices).filterMap (fun p =>
    match meta[p.2]? with
    | none => none
    | some md => if passesFilter md filt then some (p.1, md) else none)
  sortOrd (fun x y : ℝ × Metadata => decide (y.1 ≤ x.1)) results

/-- `FlexibleVectorStore.search`.  The annoy and sklearn nearest-neighbour
queries are library calls and are taken as parameters (`annQ` returns
`(indices, angular distances)` for `get_nns_by_vector`, `skQ` returns
`(cosine distances, indices)` for `kneighbors`); faiss exact search and
the numpy fallback are modelled concretely.  Note that `_search_faiss`
passes the raw squared distances as scores without converting them to
similarities. -/
noncomputable def searchFlex (es : EmbSvc)
    (annQ : AnnoyIdx → List ℝ → ℕ → List ℕ × List ℝ)
    (skQ : SkIdx → List ℝ → ℕ → List ℝ × List ℕ)
    (st : Store) (query : String) (topK : ℕ) (filt : Option Metadata) :
    Except String (List (ℝ × Metadata)) :=
  if st.index.isNone || st.metadata.isEmpty then .ok []
  else
    let qv := es.f query
    match st.backend with
    | .faiss =>
      match st.index with
      | some (.fIdx f) =>
        let kk := min topK f.vecs.length
        let sorted := sortOrd (fun x y : ℕ × ℝ => decide (x.2 ≤ y.2))
          ((f.vecs.map (sqDist qv)).enum)
        let top := sorted.take kk
        .ok (formatResults st.metadata (top.map (fun p => p.2))
          (top.map (fun p => p.1)) filt)
      | _ => .error "AttributeError: object has no attribute search"
    | .annoy =>
      match st.index with
      | some (.aIdx a) =>
        let q := annQ a qv topK
        .ok (formatResults st.metadata (q.2.map (fun d => 1 / (1 + d))) q.1 filt)
      | _ => .error "AttributeError: object has no attribute get_nns_by_vector"
    | .sklearn =>
      match st.index with
      | some (.sIdx si) =>
        match st.skEmb with
        | none => .error "AttributeError: object has no attribute embeddings"
        | some e =>
          let n := min topK e.length
          if n = 0 then .error "ValueError: Expected n_neighbors > 0"
          else
            let q := skQ si qv n
            .ok (formatResults st.metadata (q.1.map (fun d => 1 - d)) q.2 filt)
      | _ => .error "AttributeError: object has no attribute kneighbors"
    | .numpy =>
      match st.index with
      | some (.nIdx m) =>
        let sims := numpySims qv m
        let topIdx := (pyLastSlice (pyArgsortAsc sims) topK).reverse
        let topSims := topIdx.map (fun i => sims.getD i 0)
        .ok (formatResults st.metadata topSims topIdx filt)
      | _ => .error "TypeError: faiss index is not iterable"

/-- A run of `add_documents` calls, each of which must succeed. -/
def foldAdds (es : EmbSvc) : Store → List (List String × List Metadata) →
    Except String Store
  | st, [] => .ok st
  | st, b :: rest =>
    match addDocuments es st b.1 b.2 with
    | .ok st2 => foldAdds es st2 rest
    | .error e => .error e

/-- States producible in one process: a fresh store (no persisted file)
followed by any sequence of successful `add_documents` calls under any
embedding service. -/
def Reachable (st : Store) : Prop :=
  ∃ es b batches, foldAdds es (freshStore b) batches = .ok st

/-! ### The plain FAISS `VectorStore` (src/services/vector_store.py)

Used by `KnowledgeBase`.  Only `add_documents` and `size` matter to the
claims in scope. -/

structure VStore where
  index : Option FaissIdx
  metadata : List Metadata

def freshVS : VStore := { index := none, metadata := [] }

/-- `VectorStore.add_documents`: encode, create the index on first use,
append to it, extend the metadata and persist. -/
def vsAdd (es : EmbSvc) (vs : VStore) (texts : List String)
    (metas : List Metadata) : Except String VStore :=
  match texts with
  | [] => .ok vs
  | t0 :: _ =>
    let embs := texts.map es.f
    match vs.index with
    | none => .ok { index := some { dim := (es.f t0).length, vecs := embs },
                    metadata := vs.metadata ++ metas }
    | some f =>
      if f.dim = (es.f t0).length then
        .ok { index := some { dim := f.dim, vecs := f.vecs ++ embs },
              metadata := vs.metadata ++ metas }
      else .error "faiss assertion d == self.d failed"

/-- `VectorStore.size`. -/
def vsSize (vs : VStore) : ℕ :=
  match vs.index with
  | some f => f.vecs.length
  | none => 0

/-! ### KnowledgeBase (src/services/knowledge_base.py) -/

structure KEntry where
  issue : String
  root_cause : String
  solution : String
  affected_components : List String
  tags : List String
  confidence : ℚ := 1
  deriving DecidableEq

/-- The three default entries seeded when no KB file exists. -/
def kbDefaults : List KEntry :=
  [ { issue := "Database connection timeout",
      root_cause := "Connection pool exhausted or network latency",
      solution := "Increase connection pool size, check network connectivity",
      affected_components := ["Database", "API"],
      tags := ["database", "timeout", "connection"] },
    { issue := "API 500 Internal Server Error",
      root_cause := "Application code error or missing dependency",
      solution := "Check application logs, verify dependencies, restart service",
      affected_components := ["API", "Application Server"],
      tags := ["api", "500", "server"] },
    { issue := "Configuration mismatch",
      root_cause := "Version mismatch between services or incorrect settings",
      solution := "Verify configuration files, ensure version compatibility",
      affected_components := ["All"],
      tags := ["config", "version", "settings"] } ]

structure KB where
  entries : List KEntry
  vs : VStore

/-- The text representation of one entry built in `index_kb`. -/
def entryText (e : KEntry) : String :=
  "Issue: " ++ e.issue ++ "\nRoot Cause: " ++ e.root_cause ++ "\nSolution: " ++ e.solution

/-- The metadata dictionary built per entry in `index_kb`. -/
def entryMeta (i : ℕ) (e : KEntry) : Metadata :=
  [ ("id", .vnat i), ("issue", .vstr e.issue), ("root_cause", .vstr e.root_cause),
    ("solution", .vstr e.solution), ("affected_components", .vstrs e.affected_components),
    ("tags", .vstrs e.tags), ("type", .vstr "kb_fix") ]

/-- `KnowledgeBase.index_kb`: render every entry and hand the whole list
to the vector store's `add_documents` (which appends; nothing clears the
index first). -/
def indexKB (es : EmbSvc) (kb : KB) : Except String KB :=
  let texts := kb.entries.map entryText
  let metas := kb.entries.enum.map (fun p => entryMeta p.1 p.2)
  (vsAdd es kb.vs texts metas).map (fun vs2 => { kb with vs := vs2 })

/-- `KnowledgeBase.__init__` in a fresh environment: no KB file exists, so
the three defaults are seeded (and written back, an I/O effect), and
`index_kb` runs against a fresh vector store. -/
def kbInit (es : EmbSvc) : Except String KB :=
  indexKB es { entries := kbDefaults, vs := freshVS }

/-- `KnowledgeBase.add_fix`: append the new entry, persist the store
(I/O), and run `index_kb` again. -/
def kbAddFix (es : EmbSvc) (kb : KB) (issue root_cause solution : String)
    (affected_components tags : List String) : Except String KB :=
  indexKB es { kb with entries := kb.entries ++
    [{ issue := issue, root_cause := root_cause, solution := solution,
       affected_components := affected_components, tags := tags }] }

/-! ### Backend probing (`_init_backend`) -/

/-- The fixed priority order of `_init_backend`. -/
def backendOrder : List Backend := [.faiss, .annoy, .sklearn, .numpy]

/-- The probing loop: try each initializer in turn, swallowing its
exception, and keep the first that succeeds; raise if the list is
exhausted.  `avail b` states whether backend `b`'s initializer completes
without raising in the current environment. -/
def tryBackends (avail : Backend → Bool) : List Backend → Except String Backend
  | [] => .error "No vector store backend available!"
  | b :: rest => if avail b then .ok b else tryBackends avail rest

/-- `FlexibleVectorStore._init_backend`. -/
def initBackend (avail : Backend → Bool) : Except String Backend :=
  tryBackends avail backendOrder

/-- Position of a backend in the priority order. -/
def priority : Backend → ℕ
  | .faiss => 0
  | .annoy => 1
  | .sklearn => 2
  | .numpy => 3

/-! ### LogParser (src/utils/parser.py)

`parse_line` applies the anchored pattern
`(?P<timestamp>[\d\-T:.]+Z)\s+-\s+(?P<level>\w+)\s+-\s+(?P<full_message>.+)`
to the stripped line.  Because the boundary character after each
quantified piece never belongs to the preceding character class (`Z` is
not in the timestamp class, `-` is not whitespace, whitespace is not a
word character), the backtracking semantics of the regex coincide with
the greedy, deterministic scan implemented below; `.` matches everything
but a newline and `re.match` only requires a prefix match, so the final
capture is the greedy newline-free run. -/

/-- The character class `[\d\-T:.]` of the timestamp group. -/
def tsClass (c : Char) : Bool := c.isDigit || c = '-' || c = 'T' || c = ':' || c = '.'

/-- The regex class `\w` (ASCII range). -/
def wClass (c : Char) : Bool := c.isAlphanum || c = '_'

/-- The regex `.`: any character except a newline. -/
def dotClass (c : Char) : Bool := c ≠ '\n'

/-- The three captures of the top-level pattern. -/
structure TopMatch where
  ts : List Char
  lvl : List Char
  fm : List Char
  deriving DecidableEq

/-- Deterministic rendering of `re.match` for the top-level pattern. -/
def topParse (cs : List Char) : Option TopMatch :=
  let ts := cs.takeWhile tsClass
  let r1 := cs.dropWhile tsClass
  if ts.isEmpty then none else
  match r1 with
  | 'Z' :: r2 =>
    let w1 := r2.takeWhile pyIsSpace
    let r3 := r2.dropWhile pyIsSpace
    if w1.isEmpty then none else
    match r3 with
    | '-' :: r4 =>
      let w2 := r4.takeWhile pyIsSpace
      let r5 := r4.dropWhile pyIsSpace
      if w2.isEmpty then none else
      let lvl := r5.takeWhile wClass
      let r6 := r5.dropWhile wClass
      if lvl.isEmpty then none else
      let w3 := r6.takeWhile pyIsSpace
      let r7 := r6.dropWhile pyIsSpace
      if w3.isEmpty then none else
      match r7 with
      | '-' :: r8 =>
        let w4 := r8.takeWhile pyIsSpace
        let r9 := r8.dropWhile pyIsSpace
        if w4.isEmpty then none else
        let fm := r9.takeWhile dotClass
        if fm.isEmpty then none else some { ts := ts ++ ['Z'], lvl := lvl, fm := fm }
      | _ => none
    | _ => none
  | _ => none

/-- `re.search(lit + class-plus-group, cs)`: scan left to right for the
first position where the literal is a prefix and at least one character
of the class follows, and capture the greedy class run there. -/
def searchPat (lit : List Char) (cls : Char → Bool) : List Char → Option (List Char)
  | [] => none
  | c :: rest =>
    if lit.isPrefixOf (c :: rest) then
      let cap := ((c :: rest).drop lit.length).takeWhile cls
      if cap.isEmpty then searchPat lit cls rest else some cap
    else searchPat lit cls rest

def compLit : List Char := "Component=".toList
def codeLit : List Char := "Code=".toList
def msgLit : List Char := "Message=".toList

/-- `[A-Za-z]` for the component capture. -/
def compCls (c : Char) : Bool := c.isAlpha

/-- `[A-Z_]` for the error-code capture. -/
def codeCls (c : Char) : Bool := c.isUpper || c = '_'

/-- `[^\-]` for the message capture: any character except a dash. -/
def msgCls (c : Char) : Bool := c ≠ '-'

/-- The record produced by `parse_line` (src/models/log_entry.py). -/
structure LogEntry where
  timestamp : String
  log_level : String
  component : String
  error_code : Option String
  message : String
  zone : String
  client : String
  app : String
  version : String
  raw_line : String
  deriving DecidableEq

/-- `LogParser.parse_line`. -/
def parseLine (line zone client app version : String) : Option LogEntry :=
  match topParse (pyStripChars line.toList) with
  | none => none
  | some m =>
    some { timestamp := String.mk m.ts
           log_level := String.mk m.lvl
           component := match searchPat compLit compCls m.fm with
             | some cap => String.mk cap
             | none => "Unknown"
           error_code := (searchPat codeLit codeCls m.fm).map String.mk
           message := match searchPat msgLit msgCls m.fm with
             | some cap => String.mk (pyStripChars cap)
             | none => String.mk m.fm
           zone := zone, client := client, app := app, version := version
           raw_line := String.mk (pyStripChars line.toList) }

/-! ### RAGEngine (src/services/rag_engine.py)

Only the matching, fallback-selection and statistics portions of
`process_query` are modelled; the knowledge-base solution lookup and the
narrative template (which embeds the wall-clock time) are presentation
output that no claim in scope depends on. -/

/-- `RAGEngine.find_exact_matches`: every line of the log text that
contains the query case-insensitively and the literal token `ERROR`. -/
def findExactMatches (query logText : String) : List String :=
  (pySplitLines logText).filter (fun line =>
    strIn (pyLower query) (pyLower line) && strIn "ERROR" line)

/-- The fixed keyword list of `find_similar_errors`. -/
def ragKeywords : List String :=
  ["connection", "timeout", "failed", "error", "drop", "crash"]

/-- `RAGEngine.find_similar_errors`: every `ERROR` line containing some
query token or fixed keyword longer than 3 characters, deduplicated with
`list(set(...))`.  Python's set iteration order is unspecified; it is
modelled as first-occurrence order, on which no claim depends. -/
def findSimilarErrors (query logText : String) : List String :=
  ((pySplitLines logText).filter (fun line =>
    strIn "ERROR" line &&
      (pySplitWs (pyLower query) ++ ragKeywords).any (fun w =>
        strIn w (pyLower line) && decide (3 < w.length)))).eraseDups

/-- The `error_lines` local of `process_query`: the exact matches if any,
otherwise the similarity fallback. -/
def errorLines (query logText : String) : List String :=
  if (findExactMatches query logText).isEmpty then findSimilarErrors query logText
  else findExactMatches query logText

/-- The dictionary returned by `process_query` (minus `rca` and
`solutions`). -/
structure ProcOut where
  exactMatches : List String
  similarErrors : List String
  totalErrors : ℕ
  fileCount : ℕ
  uniqueComponents : ℕ
  queryMatches : ℕ
  deriving DecidableEq

/-- `RAGEngine.process_query`: missing log data short-circuits to an
error dictionary; otherwise exact matches are computed first and the
similarity fallback runs only when they are empty. -/
def processQuery (query : String) (raw : Option String) (fileCount : ℕ) :
    Except String ProcOut :=
  match raw with
  | none => .error "No log data available"
  | some t =>
    let em := findExactMatches query t
    let el := if em.isEmpty then findSimilarErrors query t else em
    let allErr := (pySplitLines t).filter (fun l => strIn "ERROR" l)
    let comps := (allErr.filterMap (fun l =>
      (searchPat compLit compCls l.toList).map String.mk)).eraseDups
    .ok { exactMatches := em
          similarErrors := if em.isEmpty then el else []
          totalErrors := allErr.length
          fileCount := fileCount
          uniqueComponents := comps.length
          queryMatches := el.length }

/-! ### Helper lemmas: greedy scans -/

lemma takeWhile_block (p : Char → Bool) (xs : List Char) (y : Char) (r : List Char)
    (hxs : ∀ c ∈ xs, p c = true) (hy : p y = false) :
    (xs ++ y :: r).takeWhile p = xs := by
  induction xs with
  | nil => simp [List.takeWhile_cons, hy]
  | cons a t ih =>
    have ha := hxs a (by simp)
    simp only [List.cons_append, List.takeWhile_cons, ha, if_true]
    rw [ih (fun c hc => hxs c (by simp [hc]))]

lemma dropWhile_block (p : Char → Bool) (xs : List Char) (y : Char) (r : List Char)
    (hxs : ∀ c ∈ xs, p c = true) (hy : p y = false) :
    (xs ++ y :: r).dropWhile p = y :: r := by
  induction xs with
  | nil => simp [List.dropWhile_cons, hy]
  | cons a t ih =>
    have ha := hxs a (by simp)
    simp only [List.cons_append, List.dropWhile_cons, ha, if_true]
    exact ih (fun c hc => hxs c (by simp [hc]))

/-! ### Helper lemmas: the stable sorts -/

lemma length_insOrd (keep : α → α → Bool) (x : α) (l : List α) :
    (insOrd keep x l).length = l.length + 1 := by
  induction l with
  | nil => simp [insOrd]
  | cons y ys ih =>
    by_cases h : keep x y
    · simp [insOrd, h]
    · simp [insOrd, h, ih]

lemma length_sortOrd (keep : α → α → Bool) (l : List α) :
    (sortOrd keep l).length = l.length := by
  induction l with
  | nil => simp [sortOrd]
  | cons x xs ih => simp [sortOrd, length_insOrd, ih]

lemma mem_insOrd (keep : α → α → Bool) (x a : α) (l : List α) :
    a ∈ insOrd keep x l ↔ a = x ∨ a ∈ l := by
  induction l with
  | nil => simp [insOrd]
  | cons y ys ih =>
    by_cases h : keep x y
    · simp [insOrd, h]
    · simp [insOrd, h, ih]
      tauto

lemma mem_sortOrd (keep : α → α → Bool) (a : α) (l : List α) :
    a ∈ sortOrd keep l ↔ a ∈ l := by
  induction l with
  | nil => simp [sortOrd]
  | cons x xs ih => simp [sortOrd, mem_insOrd, ih]

lemma chain_insOrd (keep : α → α → Bool)
    (htot : ∀ a b, keep a b = false → keep b a = true) (x : α) (l : List α)
    (hl : l.Chain' (fun a b => keep a b = true)) :
    (insOrd keep x l).Chain' (fun a b => keep a b = true) := by
  induction l with
  | nil => simp [insOrd]
  | cons y ys ih =>
    by_cases h : keep x y
    · have ht : keep x y = true := by simpa using h
      simp only [insOrd, ht, if_true]
      exact List.chain'_cons.mpr ⟨ht, hl⟩
    · have hxy : keep x y = false := by simpa using h
      have hyx := htot x y hxy
      simp only [insOrd, hxy, Bool.false_eq_true, if_false]
      rw [List.chain'_cons']
      refine ⟨?_, ih hl.tail⟩
      intro z hz
      cases ys with
      | nil =>
        simp [insOrd] at hz
        subst hz; exact hyx
      | cons z0 zs =>
        by_cases h2 : keep x z0
        · simp [insOrd, h2] at hz
          subst hz; exact hyx
        · have h2f : keep x z0 = false := by simpa using h2
          simp [insOrd, h2f] at hz
          subst hz
          exact (List.chain'_cons.mp hl).1

lemma chain_sortOrd (keep : α → α → Bool)
    (htot : ∀ a b, keep a b = false → keep b a = true) (l : List α) :
    (sortOrd keep l).Chain' (fun a b => keep a b = true) := by
  induction l with
  | nil => simp [sortOrd]
  | cons x xs ih => exact chain_insOrd keep htot x _ ih

lemma length_pyArgsortAsc (l : List ℝ) : (pyArgsortAsc l).length = l.length := by
  simp [pyArgsortAsc, length_sortOrd]

lemma length_pyLastSlice (l : List α) (k : ℕ) (hk : 1 ≤ k) :
    (pyLastSlice l k).length = min k l.length := by
  have : k ≠ 0 := by omega
  simp [pyLastSlice, this]
  omega

/-! ### Helper lemmas: result formatting -/

lemma formatResults_length (meta : List Metadata) (scores : List ℝ)
    (indices : List ℕ) (filt : Option Metadata) :
    (formatResults meta scores indices filt).length ≤ indices.length := by
  unfold formatResults
  rw [length_sortOrd]
  calc ((scores.zip indices).filterMap _).length
      ≤ (scores.zip indices).length := List.length_filterMap_le _ _
    _ ≤ indices.length := by rw [List.length_zip]; omega

lemma formatResults_mem (meta : List Metadata) (scores : List ℝ)
    (indices : List ℕ) (filt : Option Metadata) (p : ℝ × Metadata)
    (hp : p ∈ formatResults meta scores indices filt) :
    p.2 ∈ meta ∧ passesFilter p.2 filt = true ∧ p.1 ∈ scores := by
  unfold formatResults at hp
  rw [mem_sortOrd] at hp
  obtain ⟨⟨s, i⟩, hmem, heq⟩ := List.mem_filterMap.mp hp
  obtain ⟨hs, hi⟩ := List.of_mem_zip hmem
  cases hmd : meta[i]? with
  | none => simp [hmd] at heq
  | some md =>
    simp only [hmd] at heq
    by_cases hf : passesFilter md filt
    · simp only [hf, if_true, Option.some.injEq] at heq
      subst heq
      exact ⟨List.getElem?_mem hmd, hf, hs⟩
    · simp [hf] at heq

lemma formatResults_sorted (meta : List Metadata) (scores : List ℝ)
    (indices : List ℕ) (filt : Option Metadata) :
    (formatResults meta scores indices filt).Chain'
      (fun x y : ℝ × Metadata => y.1 ≤ x.1) := by
  unfold formatResults
  exact List.Chain'.imp (fun a b hab => by simpa using hab)
    (chain_sortOrd (fun x y : ℝ × Metadata => decide (y.1 ≤ x.1))
      (fun a b hab => by
        simp only [decide_eq_false_iff_not] at hab
        simpa using le_of_not_le hab) _)

lemma formatResults_dropAll (meta : List Metadata) (scores : List ℝ)
    (indices : List ℕ) (filt : Option Metadata)
    (h : ∀ i ∈ indices, meta.length ≤ i) :
    formatResults meta scores indices filt = [] := by
  unfold formatResults
  have : (scores.zip indices).filterMap (fun p =>
      match meta[p.2]? with
      | none => none
      | some md => if passesFilter md filt then some (p.1, md) else none) = [] := by
    rw [List.filterMap_eq_nil_iff]
    intro ⟨s, i⟩ hmem
    have hi := (List.of_mem_zip hmem).2
    rw [List.getElem?_eq_none (h i hi)]
  rw [this]
  rfl

/-! ### Helper lemmas: store invariants -/

/-- Well-formedness facts that hold for every state a single process can
produce: a sklearn store whose index has never been created has no
`self.embeddings` attribute either, and an annoy index, once present, has
always been built (because `_add_annoy` ends in `build`). -/
def WF (st : Store) : Prop :=
  (st.backend = .sklearn → st.index = none → st.skEmb = none) ∧
  (st.backend = .annoy → ∀ a, st.index = some (.aIdx a) → a.built = true)

lemma wf_fresh (b : Backend) : WF (freshStore b) := by
  constructor <;> intro h <;> simp [freshStore]

lemma addAnnoyItems_count (d : ℕ) (l : List (List ℝ)) :
    ∀ k, addAnnoyItems ⟨d, k, false⟩ (l.enumFrom k) = .ok ⟨d, k + l.length, false⟩ := by
  induction l with
  | nil => intro k; simp [addAnnoyItems, List.enumFrom]
  | cons v vs ih =>
    intro k
    have hmax : max k (k + 1) = k + 1 := by omega
    simp only [List.enumFrom, addAnnoyItems, Bool.false_eq_true, if_false, hmax]
    have harr : k + 1 + vs.length = k + (v :: vs).length := by
      simp [List.length_cons]
      omega
    rw [ih (k + 1), harr]

lemma addAnnoyItems_built (a : AnnoyIdx) (l : List (ℕ × List ℝ))
    (hb : a.built = true) (hl : l ≠ []) :
    addAnnoyItems a l = .error "You can't add an item to a built index" := by
  cases l with
  | nil => exact absurd rfl hl
  | cons p rest => simp [addAnnoyItems, hb]

/-- A successful non-empty `add_documents` call on a well-formed state
grows `size()` by exactly the batch length. -/
lemma size_addDocuments (es : EmbSvc) (st : Store) (texts : List String)
    (metas : List Metadata) (st2 : Store) (hwf : WF st) (hne : texts ≠ [])
    (h : addDocuments es st texts metas = .ok st2) :
    size st2 = size st + texts.length := by
  cases texts with
  | nil => exact absurd rfl hne
  | cons t0 ts =>
    unfold addDocuments at h
    simp only at h
    cases hb : st.backend with
    | faiss =>
      rw [hb] at h
      unfold addFaiss at h
      cases hidx : st.index with
      | none =>
        simp only [hidx, Except.map] at h
        cases h
        simp [size, hb, hidx]
      | some obj =>
        cases obj with
        | fIdx f =>
          simp only [hidx] at h
          by_cases hdim : f.dim = (es.f t0).length
          · simp only [hdim, if_true, Except.map] at h
            cases h
            simp [size, hb, hidx]
          · simp [hdim, Except.map] at h
        | aIdx a => simp [hidx, Except.map] at h
        | sIdx s => simp [hidx, Except.map] at h
        | nIdx m => simp [hidx, Except.map] at h
    | annoy =>
      rw [hb] at h
      unfold addAnnoy at h
      cases hidx : st.index with
      | none =>
        simp only [hidx] at h
        rw [show ((t0 :: ts).map es.f).enum = ((t0 :: ts).map es.f).enumFrom 0 from rfl] at h
        rw [addAnnoyItems_count] at h
        simp only [Except.bind, annoyBuild, Bool.false_eq_true, if_false, Except.map] at h
        cases h
        simp [size, hb, hidx, List.length_map]
      | some obj =>
        cases obj with
        | aIdx a =>
          have hbuilt := hwf.2 hb a hidx
          simp only [hidx] at h
          rw [addAnnoyItems_built a _ hbuilt (by simp [List.enumFrom])] at h
          simp [Except.bind, Except.map] at h
        | fIdx f => simp [hidx, Except.map] at h
        | sIdx s => simp [hidx, Except.map] at h
        | nIdx m => simp [hidx, Except.map] at h
    | sklearn =>
      rw [hb] at h
      unfold addSklearn at h
      cases hidx : st.index with
      | none =>
        simp only [hidx, Except.map] at h
        cases h
        have hemb := hwf.1 hb hidx
        simp [size, hb, hemb]
      | some obj =>
        cases obj with
        | sIdx si =>
          simp only [hidx] at h
          cases hemb : st.skEmb with
          | none => simp [hemb, Except.map] at h
          | some e =>
            simp only [hemb, Except.map] at h
            cases h
            simp [size, hb, hemb]
        | fIdx f => simp [hidx, Except.map] at h
        | aIdx a => simp [hidx, Except.map] at h
        | nIdx m => simp [hidx, Except.map] at h
    | numpy =>
      rw [hb] at h
      unfold addNumpy at h
      cases hidx : st.index with
      | none =>
        simp only [hidx, Except.map] at h
        cases h
        simp [size, hb, hidx]
      | some obj =>
        cases obj with
        | nIdx m =>
          simp only [hidx, Except.map] at h
          cases h
          simp [size, hb, hidx]
        | fIdx f => simp [hidx, Except.map] at h
        | aIdx a => simp [hidx, Except.map] at h
        | sIdx s => simp [hidx, Except.map] at h

lemma backend_addDocuments (es : EmbSvc) (st : Store) (texts : List String)
    (metas : List Metadata) (st2 : Store)
    (h : addDocuments es st texts metas = .ok st2) : st2.backend = st.backend := by
  cases texts with
  | nil =>
    unfold addDocuments at h
    cases h
    rfl
  | cons t0 ts =>
    unfold addDocuments at h
    simp only at h
    cases hb : st.backend with
    | faiss =>
      rw [hb] at h
      unfold addFaiss at h
      cases hidx : st.index with
      | none =>
        simp only [hidx, Except.map] at h
        cases h
        rfl
      | some obj =>
        cases obj with
        | fIdx f =>
          simp only [hidx] at h
          by_cases hdim : f.dim = (es.f t0).length
          · simp only [hdim, if_true, Except.map] at h
            cases h
            rfl
          · simp [hdim, Except.map] at h
        | aIdx a => simp [hidx, Except.map] at h
        | sIdx s => simp [hidx, Except.map] at h
        | nIdx m => simp [hidx, Except.map] at h
    | annoy =>
      rw [hb] at h
      unfold addAnnoy at h
      cases hidx : st.index with
      | none =>
        simp only [hidx] at h
        rw [show ((t0 :: ts).map es.f).enum = ((t0 :: ts).map es.f).enumFrom 0 from rfl] at h
        rw [addAnnoyItems_count] at h
        simp only [Except.bind, annoyBuild, Bool.false_eq_true, if_false, Except.map] at h
        cases h
        rfl
      | some obj =>
        cases obj with
        | aIdx a =>
          cases hbuilt : a.built with
          | true =>
            simp only [hidx] at h
            rw [addAnnoyItems_built a _ hbuilt (by simp [List.enumFrom])] at h
            simp [Except.bind, Except.map] at h
          | false =>
            simp only [hidx] at h
            cases hres : (addAnnoyItems a ((t0 :: ts).map es.f).enum).bind annoyBuild with
            | ok a2 =>
              rw [hres] at h
              simp only [Except.map] at h
              cases h
              rfl
            | error e =>
              rw [hres] at h
              simp [Except.map] at h
        | fIdx f => simp [hidx, Except.map] at h
        | sIdx s => simp [hidx, Except.map] at h
        | nIdx m => simp [hidx, Except.map] at h
    | sklearn =>
      rw [hb] at h
      unfold addSklearn at h
      cases hidx : st.index with
      | none =>
        simp only [hidx, Except.map] at h
        cases h
        rfl
      | some obj =>
        cases obj with
        | sIdx si =>
          simp only [hidx] at h
          cases hemb : st.skEmb with
          | none => simp [hemb, Except.map] at h
          | some e =>
            simp only [hemb, Except.map] at h
            cases h
            rfl
        | fIdx f => simp [hidx, Except.map] at h
        | aIdx a => simp [hidx, Except.map] at h
        | nIdx m => simp [hidx, Except.map] at h
    | numpy =>
      rw [hb] at h
      unfold addNumpy at h
      cases hidx : st.index with
      | none =>
        simp only [hidx, Except.map] at h
        cases h
        rfl
      | some obj =>
        cases obj with
        | nIdx m =>
          simp only [hidx, Except.map] at h
          cases h
          rfl
        | fIdx f => simp [hidx, Except.map] at h
        | aIdx a => simp [hidx, Except.map] at h
        | sIdx s => simp [hidx, Except.map] at h

lemma wf_addDocuments (es : EmbSvc) (st : Store) (texts : List String)
    (metas : List Metadata) (st2 : Store) (hwf : WF st)
    (h : addDocuments es st texts metas = .ok st2) : WF st2 := by
  cases texts with
  | nil =>
    unfold addDocuments at h
    cases h
    exact hwf
  | cons t0 ts =>
    unfold addDocuments at h
    simp only at h
    cases hb : st.backend with
    | faiss =>
      rw [hb] at h
      unfold addFaiss at h
      cases hidx : st.index with
      | none =>
        simp only [hidx, Except.map] at h
        cases h
        constructor <;> intro hc <;> simp at hc
      | some obj =>
        cases obj with
        | fIdx f =>
          simp only [hidx] at h
          by_cases hdim : f.dim = (es.f t0).length
          · simp only [hdim, if_true, Except.map] at h
            cases h
            constructor <;> intro hc <;> simp at hc
          · simp [hdim, Except.map] at h
        | aIdx a => simp [hidx, Except.map] at h
        | sIdx s => simp [hidx, Except.map] at h
        | nIdx m => simp [hidx, Except.map] at h
    | annoy =>
      rw [hb] at h
      unfold addAnnoy at h
      cases hidx : st.index with
      | none =>
        simp only [hidx] at h
        rw [show ((t0 :: ts).map es.f).enum = ((t0 :: ts).map es.f).enumFrom 0 from rfl] at h
        rw [addAnnoyItems_count] at h
        simp only [Except.bind, annoyBuild, Bool.false_eq_true, if_false, Except.map] at h
        cases h
        constructor
        · intro hc
          simp at hc
        · intro _ a ha
          simp only [Option.some.injEq, IndexObj.aIdx.injEq] at ha
          rw [← ha]
      | some obj =>
        cases obj with
        | aIdx a =>
          have hbuilt := hwf.2 hb a hidx
          simp only [hidx] at h
          rw [addAnnoyItems_built a _ hbuilt (by simp [List.enumFrom])] at h
          simp [Except.bind, Except.map] at h
        | fIdx f => simp [hidx, Except.map] at h
        | sIdx s => simp [hidx, Except.map] at h
        | nIdx m => simp [hidx, Except.map] at h
    | sklearn =>
      rw [hb] at h
      unfold addSklearn at h
      cases hidx : st.index with
      | none =>
        simp only [hidx, Except.map] at h
        cases h
        constructor <;> intro hc <;> simp at hc ⊢
      | some obj =>
        cases obj with
        | sIdx si =>
          simp only [hidx] at h
          cases hemb : st.skEmb with
          | none => simp [hemb, Except.map] at h
          | some e =>
            simp only [hemb, Except.map] at h
            cases h
            constructor <;> intro hc <;> simp at hc ⊢
        | fIdx f => simp [hidx, Except.map] at h
        | aIdx a => simp [hidx, Except.map] at h
        | nIdx m => simp [hidx, Except.map] at h
    | numpy =>
      rw [hb] at h
      unfold addNumpy at h
      cases hidx : st.index with
      | none =>
        simp only [hidx, Except.map] at h
        cases h
        constructor <;> intro hc <;> simp at hc
      | some obj =>
        cases obj with
        | nIdx m =>
          simp only [hidx, Except.map] at h
          cases h
          constructor <;> intro hc <;> simp at hc
        | fIdx f => simp [hidx, Except.map] at h
        | aIdx a => simp [hidx, Except.map] at h
        | sIdx s => simp [hidx, Except.map] at h

/-- Invariant carried along a run of successful `add_documents` calls. -/
lemma foldAdds_inv (es : EmbSvc) (batches : List (List String × List Metadata)) :
    ∀ st0 st, WF st0 → (size st0 = 0 → st0.metadata = []) →
      foldAdds es st0 batches = .ok st →
      WF st ∧ (size st = 0 → st.metadata = []) := by
  induction batches with
  | nil =>
    intro st0 st hwf hq h
    unfold foldAdds at h
    cases h
    exact ⟨hwf, hq⟩
  | cons b rest ih =>
    intro st0 st hwf hq h
    unfold foldAdds at h
    cases hadd : addDocuments es st0 b.1 b.2 with
    | error e => rw [hadd] at h; cases h
    | ok mid =>
      rw [hadd] at h
      have hwf2 := wf_addDocuments es st0 b.1 b.2 mid hwf hadd
      refine ih mid st hwf2 ?_ h
      cases hb1 : b.1 with
      | nil =>
        intro hz
        unfold addDocuments at hadd
        rw [hb1] at hadd
        cases hadd
        exact hq hz
      | cons t0 ts =>
        intro hz
        have := size_addDocuments es st0 b.1 b.2 mid hwf (by rw [hb1]; simp) hadd
        rw [hb1] at this
        simp [this] at hz

lemma reachable_wf (st : Store) (h : Reachable st) : WF st := by
  obtain ⟨es, b, batches, hfold⟩ := h
  exact (foldAdds_inv es batches (freshStore b) st (wf_fresh b) (fun _ => rfl) hfold).1

lemma reachable_size_zero (st : Store) (h : Reachable st) (hz : size st = 0) :
    st.metadata = [] := by
  obtain ⟨es, b, batches, hfold⟩ := h
  exact (foldAdds_inv es batches (freshStore b) st (wf_fresh b) (fun _ => rfl) hfold).2 hz

lemma searchFlex_of_empty_meta (es : EmbSvc)
    (annQ : AnnoyIdx → List ℝ → ℕ → List ℕ × List ℝ)
    (skQ : SkIdx → List ℝ → ℕ → List ℝ × List ℕ)
    (st : Store) (q : String) (topK : ℕ) (filt : Option Metadata)
    (hm : st.metadata = []) :
    searchFlex es annQ skQ st q topK filt = .ok [] := by
  unfold searchFlex
  simp [hm]

lemma length_numpySims (qv : List ℝ) (docs : List (List ℝ)) :
    (numpySims qv docs).length = docs.length := by
  simp [numpySims]

lemma searchFlex_length (es : EmbSvc)
    (annQ : AnnoyIdx → List ℝ → ℕ → List ℕ × List ℝ)
    (skQ : SkIdx → List ℝ → ℕ → List ℝ × List ℕ)
    (st : Store) (q : String) (topK : ℕ) (filt : Option Metadata)
    (r : List (ℝ × Metadata))
    (hann : ∀ a v k, ((annQ a v k).1).length ≤ min k a.nItems)
    (hsk : ∀ si v n, ((skQ si v n).2).length ≤ n)
    (hk : 1 ≤ topK)
    (h : searchFlex es annQ skQ st q topK filt = .ok r) :
    r.length ≤ min topK (size st) := by
  unfold searchFlex at h
  by_cases hguard : (st.index.isNone || st.metadata.isEmpty) = true
  · rw [if_pos hguard] at h
    cases h
    simp
  · rw [if_neg hguard] at h
    cases hidx : st.index with
    | none => simp [hidx] at hguard
    | some obj =>
      cases hb : st.backend with
      | faiss =>
        rw [hb, hidx] at h
        cases obj with
        | fIdx f =>
          simp only at h
          cases h
          have h1 := formatResults_length st.metadata
            (((sortOrd (fun x y : ℕ × ℝ => decide (x.2 ≤ y.2))
                ((f.vecs.map (sqDist (es.f q))).enum)).take
              (min topK f.vecs.length)).map (fun p => p.2))
            (((sortOrd (fun x y : ℕ × ℝ => decide (x.2 ≤ y.2))
                ((f.vecs.map (sqDist (es.f q))).enum)).take
              (min topK f.vecs.length)).map (fun p => p.1)) filt
          have h2 : (((sortOrd (fun x y : ℕ × ℝ => decide (x.2 ≤ y.2))
              ((f.vecs.map (sqDist (es.f q))).enum)).take
              (min topK f.vecs.length)).map (fun p => p.1)).length
              ≤ min topK f.vecs.length := by
            rw [List.length_map, List.length_take]
            omega
          have hsz : size st = f.vecs.length := by simp [size, hb, hidx]
          rw [hsz]
          omega
        | aIdx a => simp at h
        | sIdx s => simp at h
        | nIdx m => simp at h
      | annoy =>
        rw [hb, hidx] at h
        cases obj with
        | aIdx a =>
          simp only at h
          cases h
          have h1 := formatResults_length st.metadata
            ((annQ a (es.f q) topK).2.map (fun d => 1 / (1 + d)))
            (annQ a (es.f q) topK).1 filt
          have h2 := hann a (es.f q) topK
          have hsz : size st = a.nItems := by simp [size, hb, hidx]
          rw [hsz]
          omega
        | fIdx f => simp at h
        | sIdx s => simp at h
        | nIdx m => simp at h
      | sklearn =>
        rw [hb, hidx] at h
        cases obj with
        | sIdx si =>
          cases hemb : st.skEmb with
          | none => simp [hemb] at h
          | some e =>
            simp only [hemb] at h
            by_cases hn : min topK e.length = 0
            · simp [hn] at h
            · simp only [hn, if_false] at h
              cases h
              have h1 := formatResults_length st.metadata
                ((skQ si (es.f q) (min topK e.length)).1.map (fun d => 1 - d))
                (skQ si (es.f q) (min topK e.length)).2 filt
              have h2 := hsk si (es.f q) (min topK e.length)
              have hsz : size st = e.length := by simp [size, hb, hemb]
              rw [hsz]
              omega
        | fIdx f => simp at h
        | aIdx a => simp at h
        | nIdx m => simp at h
      | numpy =>
        rw [hb, hidx] at h
        cases obj with
        | nIdx m =>
          simp only at h
          cases h
          have h1 := formatResults_length st.metadata
            (((pyLastSlice (pyArgsortAsc (numpySims (es.f q) m)) topK).reverse).map
              (fun i => (numpySims (es.f q) m).getD i 0))
            ((pyLastSlice (pyArgsortAsc (numpySims (es.f q) m)) topK).reverse) filt
          have h2 : ((pyLastSlice (pyArgsortAsc (numpySims (es.f q) m)) topK).reverse).length
              = min topK m.length := by
            rw [List.length_reverse,
              length_pyLastSlice _ _ hk, length_pyArgsortAsc, length_numpySims]
          have hsz : size st = m.length := by simp [size, hb, hidx]
          rw [hsz]
          omega
        | fIdx f => simp at h
        | aIdx a => simp at h
        | sIdx s => simp at h

/-! ### Helper lemmas: the sub-field searches of `parse_line` -/

/-- The tail `t` contains a match of `re.search(lit + "([cls]+)")`:
somewhere the literal occurs immediately followed by at least one
character of the capture class. -/
def HasPat (lit : List Char) (cls : Char → Bool) (t : List Char) : Prop :=
  ∃ pre c post, t = pre ++ lit ++ c :: post ∧ cls c = true

/-- A valid capture for `re.search(lit + "([cls]+)")` on `t`: the literal
occurs, `cap` is a non-empty run of class characters right after it, and
the run is maximal. -/
def CapSpec (lit : List Char) (cls : Char → Bool) (t cap : List Char) : Prop :=
  ∃ pre post, t = pre ++ lit ++ (cap ++ post) ∧ cap ≠ [] ∧
    (∀ ch ∈ cap, cls ch = true) ∧ (∀ ch, post.head? = some ch → cls ch = false)

lemma hasPat_cons_of_tail (lit : List Char) (cls : Char → Bool) (a : Char)
    (rest : List Char) (h : HasPat lit cls rest) : HasPat lit cls (a :: rest) := by
  obtain ⟨pre, c, post, heq, hc⟩ := h
  exact ⟨a :: pre, c, post, by simp [heq], hc⟩

lemma hasPat_cons_elim (lit : List Char) (cls : Char → Bool) (a : Char)
    (rest : List Char) (h : HasPat lit cls (a :: rest)) :
    (∃ s, lit ++ s = a :: rest ∧ ∃ c post, s = c :: post ∧ cls c = true) ∨
      HasPat lit cls rest := by
  obtain ⟨pre, c, post, heq, hc⟩ := h
  cases pre with
  | nil =>
    left
    simp only [List.nil_append] at heq
    exact ⟨c :: post, heq.symm, c, post, rfl, hc⟩
  | cons p ps =>
    right
    rw [List.append_assoc, List.cons_append] at heq
    refine ⟨ps, c, post, ?_, hc⟩
    rw [List.append_assoc]
    exact (List.cons.inj heq).2

lemma head?_dropWhile_false (p : α → Bool) (l : List α) (c : α)
    (h : (l.dropWhile p).head? = some c) : p c = false := by
  induction l with
  | nil => simp at h
  | cons a t ih =>
    by_cases hp : p a = true
    · rw [List.dropWhile_cons, if_pos hp] at h
      exact ih h
    · rw [List.dropWhile_cons, if_neg hp] at h
      simp only [List.head?_cons, Option.some.injEq] at h
      subst h
      simpa using hp

lemma searchPat_none_iff (lit : List Char) (cls : Char → Bool)
    (t : List Char) : searchPat lit cls t = none ↔ ¬ HasPat lit cls t := by
  induction t with
  | nil =>
    simp only [searchPat, true_iff]
    rintro ⟨pre, c, post, heq, -⟩
    have hlen := congrArg List.length heq
    simp [List.length_append] at hlen
    omega
  | cons a rest ih =>
    by_cases hpre : lit.isPrefixOf (a :: rest) = true
    · obtain ⟨s, hs⟩ : ∃ s, lit ++ s = a :: rest := List.isPrefixOf_iff_prefix.mp hpre
      have hdrop : (a :: rest).drop lit.length = s := by
        rw [← hs, List.drop_left]
      by_cases hcap : (((a :: rest).drop lit.length).takeWhile cls).isEmpty = true
      · have hstep : searchPat lit cls (a :: rest) = searchPat lit cls rest := by
          simp only [searchPat, hpre, if_true, hcap]
        rw [hstep, ih]
        constructor
        · intro hn hp
          rcases hasPat_cons_elim lit cls a rest hp with h0 | htail
          · obtain ⟨s2, hs2, c, post, hcp, hc⟩ := h0
            have : s2 = s := List.append_cancel_left (hs2.trans hs.symm)
            subst this
            rw [hdrop, hcp] at hcap
            simp [List.takeWhile_cons, hc] at hcap
          · exact hn htail
        · intro hn hp
          exact hn (hasPat_cons_of_tail lit cls a rest hp)
      · have hcapf : (((a :: rest).drop lit.length).takeWhile cls).isEmpty = false := by
          simpa using hcap
        have hstep : searchPat lit cls (a :: rest)
            = some (((a :: rest).drop lit.length).takeWhile cls) := by
          simp only [searchPat, hpre, if_true, hcapf, Bool.false_eq_true, if_false]
        have hhas : HasPat lit cls (a :: rest) := by
          rw [hdrop] at hcapf
          cases s with
          | nil => simp at hcapf
          | cons c post =>
            have hc : cls c = true := by
              by_cases h : cls c = true
              · exact h
              · simp [List.takeWhile_cons, h] at hcapf
            exact ⟨[], c, post, by simp [← hs], hc⟩
        rw [hstep]
        simp [hhas]
    · have hstep : searchPat lit cls (a :: rest) = searchPat lit cls rest := by
        simp only [searchPat, hpre, Bool.false_eq_true, if_false]
      rw [hstep, ih]
      constructor
      · intro hn hp
        rcases hasPat_cons_elim lit cls a rest hp with h0 | htail
        · obtain ⟨s2, hs2, -⟩ := h0
          exact hpre (List.isPrefixOf_iff_prefix.mpr ⟨s2, hs2⟩)
        · exact hn htail
      · intro hn hp
        exact hn (hasPat_cons_of_tail lit cls a rest hp)

lemma searchPat_some_spec (lit : List Char) (cls : Char → Bool)
    (t cap : List Char) (h : searchPat lit cls t = some cap) :
    CapSpec lit cls t cap := by
  induction t with
  | nil => simp [searchPat] at h
  | cons a rest ih =>
    by_cases hpre : lit.isPrefixOf (a :: rest) = true
    · obtain ⟨s, hs⟩ : ∃ s, lit ++ s = a :: rest := List.isPrefixOf_iff_prefix.mp hpre
      have hdrop : (a :: rest).drop lit.length = s := by
        rw [← hs, List.drop_left]
      by_cases hcap : (((a :: rest).drop lit.length).takeWhile cls).isEmpty = true
      · have hstep : searchPat lit cls (a :: rest) = searchPat lit cls rest := by
          simp only [searchPat, hpre, if_true, hcap]
        rw [hstep] at h
        obtain ⟨pre, post, heq, hne, hmem, hpost⟩ := ih h
        refine ⟨a :: pre, post, ?_, hne, hmem, hpost⟩
        simp [heq]
      · have hcapf : (((a :: rest).drop lit.length).takeWhile cls).isEmpty = false := by
          simpa using hcap
        have hstep : searchPat lit cls (a :: rest)
            = some (((a :: rest).drop lit.length).takeWhile cls) := by
          simp only [searchPat, hpre, if_true, hcapf, Bool.false_eq_true, if_false]
        rw [hstep] at h
        cases h
        refine ⟨[], s.dropWhile cls, ?_, ?_, ?_, ?_⟩
        · rw [hdrop, List.nil_append, List.takeWhile_append_dropWhile]
          exact hs.symm
        · intro hnil
          rw [hnil] at hcapf
          simp at hcapf
        · intro ch hch
          exact List.mem_takeWhile_imp hch
        · intro ch hch
          exact head?_dropWhile_false cls s ch hch
    · have hstep : searchPat lit cls (a :: rest) = searchPat lit cls rest := by
        simp only [searchPat, hpre, Bool.false_eq_true, if_false]
      rw [hstep] at h
      obtain ⟨pre, post, heq, hne, hmem, hpost⟩ := ih h
      refine ⟨a :: pre, post, ?_, hne, hmem, hpost⟩
      simp [heq]

/-! ### Helper lemmas: the top-level line grammar -/

lemma space_not_wClass (c : Char) (h : pyIsSpace c = true) : wClass c = false := by
  simp only [pyIsSpace, Bool.or_eq_true, decide_eq_true_eq] at h
  rcases h with ((((h | h) | h) | h) | h) | h <;> subst h <;> decide

lemma wClass_not_space (c : Char) (h : wClass c = true) : pyIsSpace c = false := by
  cases hs : pyIsSpace c with
  | false => rfl
  | true => rw [space_not_wClass c hs] at h; cases h

lemma not_space_dotClass (c : Char) (h : pyIsSpace c = false) : dotClass c = true := by
  simp only [dotClass, decide_eq_true_eq]
  intro hc
  subst hc
  simp [pyIsSpace] at h

/-- Existence of a match of the top-level pattern of `parse_line` against
a prefix of `cs` (`re.match` semantics: the part after the final `.+`
capture is unconstrained). -/
def TopGrammar (cs : List Char) : Prop :=
  ∃ ts w1 w2 lvl w3 w4 msg rest,
    cs = ts ++ 'Z' :: (w1 ++ '-' :: (w2 ++ (lvl ++ (w3 ++ '-' :: (w4 ++ (msg ++ rest)))))) ∧
    ts ≠ [] ∧ (∀ c ∈ ts, tsClass c = true) ∧
    w1 ≠ [] ∧ (∀ c ∈ w1, pyIsSpace c = true) ∧
    w2 ≠ [] ∧ (∀ c ∈ w2, pyIsSpace c = true) ∧
    lvl ≠ [] ∧ (∀ c ∈ lvl, wClass c = true) ∧
    w3 ≠ [] ∧ (∀ c ∈ w3, pyIsSpace c = true) ∧
    w4 ≠ [] ∧ (∀ c ∈ w4, pyIsSpace c = true) ∧
    msg ≠ [] ∧ (∀ c ∈ msg, dotClass c = true)

lemma topParse_some_grammar (cs : List Char) (m : TopMatch)
    (h : topParse cs = some m) : TopGrammar cs := by
  unfold topParse at h
  simp only at h
  split at h
  · cases h
  case isFalse h1 =>
  split at h
  case h_2 => cases h
  case h_1 r2 heqZ =>
  split at h
  · cases h
  case isFalse h2 =>
  split at h
  case h_2 => cases h
  case h_1 r4 heqD1 =>
  split at h
  · cases h
  case isFalse h3 =>
  split at h
  · cases h
  case isFalse h4 =>
  split at h
  · cases h
  case isFalse h5 =>
  split at h
  case h_2 => cases h
  case h_1 r8 heqD2 =>
  split at h
  · cases h
  case isFalse h6 =>
  split at h
  · cases h
  case isFalse h7 =>
  refine ⟨cs.takeWhile tsClass,
    r2.takeWhile pyIsSpace,
    r4.takeWhile pyIsSpace,
    (r4.dropWhile pyIsSpace).takeWhile wClass,
    ((r4.dropWhile pyIsSpace).dropWhile wClass).takeWhile pyIsSpace,
    r8.takeWhile pyIsSpace,
    (r8.dropWhile pyIsSpace).takeWhile dotClass,
    (r8.dropWhile pyIsSpace).dropWhile dotClass,
    ?_, ?_, ?_, ?_, ?_, ?_, ?_, ?_, ?_, ?_, ?_, ?_, ?_, ?_, ?_⟩
  · conv_lhs => rw [← List.takeWhile_append_dropWhile (p := tsClass) (l := cs), heqZ]
    congr 1
    congr 1
    conv_lhs => rw [← List.takeWhile_append_dropWhile (p := pyIsSpace) (l := r2), heqD1]
    congr 1
    congr 1
    conv_lhs => rw [← List.takeWhile_append_dropWhile (p := pyIsSpace) (l := r4)]
    congr 1
    conv_lhs => rw [← List.takeWhile_append_dropWhile (p := wClass)
      (l := r4.dropWhile pyIsSpace)]
    congr 1
    conv_lhs => rw [← List.takeWhile_append_dropWhile (p := pyIsSpace)
      (l := (r4.dropWhile pyIsSpace).dropWhile wClass), heqD2]
    congr 1
    congr 1
    conv_lhs => rw [← List.takeWhile_append_dropWhile (p := pyIsSpace) (l := r8)]
    congr 1
    conv_lhs => rw [← List.takeWhile_append_dropWhile (p := dotClass)
      (l := r8.dropWhile pyIsSpace)]
  · simpa [List.isEmpty_iff] using h1
  · intro c hc; exact List.mem_takeWhile_imp hc
  · simpa [List.isEmpty_iff] using h2
  · intro c hc; exact List.mem_takeWhile_imp hc
  · simpa [List.isEmpty_iff] using h3
  · intro c hc; exact List.mem_takeWhile_imp hc
  · simpa [List.isEmpty_iff] using h4
  · intro c hc; exact List.mem_takeWhile_imp hc
  · simpa [List.isEmpty_iff] using h5
  · intro c hc; exact List.mem_takeWhile_imp hc
  · simpa [List.isEmpty_iff] using h6
  · intro c hc; exact List.mem_takeWhile_imp hc
  · simpa [List.isEmpty_iff] using h7
  · intro c hc; exact List.mem_takeWhile_imp hc

lemma mem_of_getLast?_eq (l : List α) (c : α) (h : l.getLast? = some c) : c ∈ l := by
  induction l with
  | nil => simp at h
  | cons a t ih =>
    cases t with
    | nil =>
      simp only [List.getLast?_singleton, Option.some.injEq] at h
      simp [h]
    | cons b t2 =>
      rw [List.getLast?_cons_cons] at h
      exact List.mem_cons_of_mem a (ih h)

/-- The result of `str.strip()` never ends in whitespace. -/
lemma pyStripChars_last (l : List Char) (c : Char)
    (h : (pyStripChars l).getLast? = some c) : pyIsSpace c = false := by
  unfold pyStripChars at h
  rw [List.getLast?_eq_head?_reverse, List.reverse_reverse] at h
  exact head?_dropWhile_false pyIsSpace _ c h

lemma topGrammar_topParse (cs : List Char)
    (hlast : ∀ c, cs.getLast? = some c → pyIsSpace c = false)
    (hg : TopGrammar cs) : ∃ m, topParse cs = some m := by
  obtain ⟨ts, w1, w2, lvl, w3, w4, msg, rest, hcs, hts, htsm, hw1, hw1m, hw2, hw2m,
    hlvl, hlvlm, hw3, hw3m, hw4, hw4m, hmsg, hmsgm⟩ := hg
  obtain ⟨lc, lt, rfl⟩ : ∃ a b, lvl = a :: b := by
    cases lvl with
    | nil => exact absurd rfl hlvl
    | cons a b => exact ⟨a, b, rfl⟩
  obtain ⟨wc3, wt3, rfl⟩ : ∃ a b, w3 = a :: b := by
    cases w3 with
    | nil => exact absurd rfl hw3
    | cons a b => exact ⟨a, b, rfl⟩
  obtain ⟨wc4, wt4, rfl⟩ : ∃ a b, w4 = a :: b := by
    cases w4 with
    | nil => exact absurd rfl hw4
    | cons a b => exact ⟨a, b, rfl⟩
  obtain ⟨R4, hR4⟩ : ∃ x, x = (wc4 :: wt4) ++ (msg ++ rest) := ⟨_, rfl⟩
  obtain ⟨R3, hR3⟩ : ∃ x, x = (wc3 :: wt3) ++ '-' :: R4 := ⟨_, rfl⟩
  obtain ⟨R2, hR2⟩ : ∃ x, x = w2 ++ ((lc :: lt) ++ R3) := ⟨_, rfl⟩
  obtain ⟨R1, hR1⟩ : ∃ x, x = w1 ++ '-' :: R2 := ⟨_, rfl⟩
  have hcs2 : cs = ts ++ 'Z' :: R1 := by
    rw [hcs, hR1, hR2, hR3, hR4]
  have htw1 : cs.takeWhile tsClass = ts := by
    rw [hcs2]
    exact takeWhile_block _ _ _ _ htsm (by decide)
  have hdw1 : cs.dropWhile tsClass = 'Z' :: R1 := by
    rw [hcs2]
    exact dropWhile_block _ _ _ _ htsm (by decide)
  have htw2 : R1.takeWhile pyIsSpace = w1 := by
    rw [hR1]
    exact takeWhile_block _ _ _ _ hw1m (by decide)
  have hdw2 : R1.dropWhile pyIsSpace = '-' :: R2 := by
    rw [hR1]
    exact dropWhile_block _ _ _ _ hw1m (by decide)
  have hlcw : wClass lc = true := hlvlm lc (by simp)
  have htw3 : R2.takeWhile pyIsSpace = w2 := by
    rw [hR2, List.cons_append]
    exact takeWhile_block _ _ _ _ hw2m (wClass_not_space lc hlcw)
  have hdw3 : R2.dropWhile pyIsSpace = lc :: (lt ++ R3) := by
    rw [hR2, List.cons_append]
    exact dropWhile_block _ _ _ _ hw2m (wClass_not_space lc hlcw)
  have hwc3s : pyIsSpace wc3 = true := hw3m wc3 (by simp)
  have htw4 : (lc :: (lt ++ R3)).takeWhile wClass = lc :: lt := by
    rw [hR3, List.cons_append, ← List.cons_append]
    exact takeWhile_block _ _ _ _ hlvlm (space_not_wClass wc3 hwc3s)
  have hdw4 : (lc :: (lt ++ R3)).dropWhile wClass = wc3 :: (wt3 ++ '-' :: R4) := by
    rw [hR3, List.cons_append, ← List.cons_append]
    exact dropWhile_block _ _ _ _ hlvlm (space_not_wClass wc3 hwc3s)
  have htw5 : (wc3 :: (wt3 ++ '-' :: R4)).takeWhile pyIsSpace = wc3 :: wt3 := by
    rw [← List.cons_append]
    exact takeWhile_block _ _ _ _ hw3m (by decide)
  have hdw5 : (wc3 :: (wt3 ++ '-' :: R4)).dropWhile pyIsSpace = '-' :: R4 := by
    rw [← List.cons_append]
    exact dropWhile_block _ _ _ _ hw3m (by decide)
  have hwc4s : pyIsSpace wc4 = true := hw4m wc4 (by simp)
  have htw6 : (R4.takeWhile pyIsSpace).isEmpty = false := by
    rw [hR4, List.cons_append, List.takeWhile_cons, hwc4s]
    simp
  have hR4ne : R4 ≠ [] := by
    rw [hR4]
    simp
  have hsplit : cs = (ts ++ 'Z' :: (w1 ++ '-' :: (w2 ++ ((lc :: lt) ++
      ((wc3 :: wt3) ++ ['-']))))) ++ R4 := by
    rw [hcs2, hR1, hR2, hR3]
    simp [List.append_assoc]
  have hlastR4 : ∀ c, R4.getLast? = some c → pyIsSpace c = false := by
    intro c hc
    refine hlast c ?_
    rw [hsplit, List.getLast?_append_of_ne_nil _ hR4ne]
    exact hc
  have hr9ne : R4.dropWhile pyIsSpace ≠ [] := by
    intro hnil
    have hall := List.dropWhile_eq_nil_iff.mp hnil
    cases hR4l : R4.getLast? with
    | none =>
      rw [List.getLast?_eq_none_iff] at hR4l
      exact hR4ne hR4l
    | some c =>
      have hcm := mem_of_getLast?_eq R4 c hR4l
      have := hall c hcm
      rw [hlastR4 c hR4l] at this
      cases this
  obtain ⟨d, ds, hds⟩ : ∃ d ds, R4.dropWhile pyIsSpace = d :: ds := by
    cases hx : R4.dropWhile pyIsSpace with
    | nil => exact absurd hx hr9ne
    | cons d ds => exact ⟨d, ds, rfl⟩
  have hdns : pyIsSpace d = false := by
    refine head?_dropWhile_false pyIsSpace R4 d ?_
    rw [hds]
    rfl
  have hfm : ((R4.dropWhile pyIsSpace).takeWhile dotClass).isEmpty = false := by
    rw [hds, List.takeWhile_cons, not_space_dotClass d hdns]
    simp
  refine ⟨⟨ts ++ ['Z'], lc :: lt, (R4.dropWhile pyIsSpace).takeWhile dotClass⟩, ?_⟩
  unfold topParse
  simp only [htw1, hdw1, htw2, hdw2, htw3, hdw3, htw4, hdw4, htw5, hdw5, htw6, hfm]
  have htse : ts.isEmpty = false := by
    simpa [List.isEmpty_iff] using hts
  have hw1e : w1.isEmpty = false := by
    simpa [List.isEmpty_iff] using hw1
  have hw2e : w2.isEmpty = false := by
    simpa [List.isEmpty_iff] using hw2
  simp [htse, hw1e, hw2e, List.isEmpty_iff]

/-! ### Remaining helper lemmas for the claim theorems -/

lemma numpySims_zero (qv : List ℝ) (docs : List (List ℝ)) (hq : normR qv = 0) :
    ∀ x ∈ numpySims qv docs, x = 0 := by
  intro x hx
  simp only [numpySims, List.mem_map] at hx
  obtain ⟨d, -, hd⟩ := hx
  rw [← hd, if_pos (Or.inl hq)]

lemma getD_zero (l : List ℝ) (h0 : ∀ x ∈ l, x = 0) (i : ℕ) : l.getD i 0 = 0 := by
  rw [List.getD_eq_getElem?_getD]
  cases hx : l[i]? with
  | none => rfl
  | some v =>
    have := h0 v (List.getElem?_mem hx)
    simp [this]

/-- Every successful search result comes out of `_format_results` and is
therefore sorted descending by score, whatever the backend. -/
lemma searchFlex_sorted (es : EmbSvc)
    (annQ : AnnoyIdx → List ℝ → ℕ → List ℕ × List ℝ)
    (skQ : SkIdx → List ℝ → ℕ → List ℝ × List ℕ)
    (st : Store) (q : String) (topK : ℕ) (filt : Option Metadata)
    (r : List (ℝ × Metadata))
    (h : searchFlex es annQ skQ st q topK filt = .ok r) :
    r.Chain' (fun x y : ℝ × Metadata => y.1 ≤ x.1) := by
  unfold searchFlex at h
  by_cases hguard : (st.index.isNone || st.metadata.isEmpty) = true
  · rw [if_pos hguard] at h
    cases h
    simp
  · rw [if_neg hguard] at h
    cases hidx : st.index with
    | none => simp [hidx] at hguard
    | some obj =>
      cases hb : st.backend with
      | faiss =>
        rw [hb, hidx] at h
        cases obj with
        | fIdx f =>
          simp only at h
          cases h
          exact formatResults_sorted _ _ _ _
        | aIdx a => simp at h
        | sIdx s => simp at h
        | nIdx m => simp at h
      | annoy =>
        rw [hb, hidx] at h
        cases obj with
        | aIdx a =>
          simp only at h
          cases h
          exact formatResults_sorted _ _ _ _
        | fIdx f => simp at h
        | sIdx s => simp at h
        | nIdx m => simp at h
      | sklearn =>
        rw [hb, hidx] at h
        cases obj with
        | sIdx si =>
          cases hemb : st.skEmb with
          | none => simp [hemb] at h
          | some e =>
            simp only [hemb] at h
            by_cases hn : min topK e.length = 0
            · simp [hn] at h
            · simp only [hn, if_false] at h
              cases h
              exact formatResults_sorted _ _ _ _
        | fIdx f => simp at h
        | aIdx a => simp at h
        | nIdx m => simp at h
      | numpy =>
        rw [hb, hidx] at h
        cases obj with
        | nIdx m =>
          simp only at h
          cases h
          exact formatResults_sorted _ _ _ _
        | fIdx f => simp at h
        | aIdx a => simp at h
        | sIdx s => simp at h

/-- Under the numpy backend with a zero-norm query every returned score
is the defined similarity 0. -/
lemma searchFlex_numpy_zero (es : EmbSvc)
    (annQ : AnnoyIdx → List ℝ → ℕ → List ℕ × List ℝ)
    (skQ : SkIdx → List ℝ → ℕ → List ℝ × List ℕ)
    (st : Store) (q : String) (topK : ℕ) (filt : Option Metadata)
    (r : List (ℝ × Metadata)) (m : List (List ℝ))
    (hb : st.backend = .numpy) (hidx : st.index = some (.nIdx m))
    (hq0 : normR (es.f q) = 0)
    (h : searchFlex es annQ skQ st q topK filt = .ok r) :
    ∀ p ∈ r, p.1 = 0 := by
  intro p hp
  unfold searchFlex at h
  by_cases hguard : (st.index.isNone || st.metadata.isEmpty) = true
  · rw [if_pos hguard] at h
    cases h
    simp at hp
  · rw [if_neg hguard, hb, hidx] at h
    simp only at h
    cases h
    have hscore := (formatResults_mem _ _ _ _ p hp).2.2
    simp only [List.mem_map] at hscore
    obtain ⟨i, -, hi⟩ := hscore
    rw [← hi]
    exact getD_zero _ (numpySims_zero (es.f q) m hq0) i

/-! ### Concrete fixtures used by the claim theorems -/

/-- A deterministic one-dimensional embedding service mapping every text
to the vector `[1]`. -/
def embOne : EmbSvc := ⟨1, fun _ => [(1 : ℝ)], fun _ => rfl⟩

/-- A one-dimensional embedding service mapping every text to the zero
vector. -/
def embZero : EmbSvc := ⟨1, fun _ => [(0 : ℝ)], fun _ => rfl⟩

/-- A trivial annoy query function (returns no neighbours). -/
def annNone : AnnoyIdx → List ℝ → ℕ → List ℕ × List ℝ := fun _ _ _ => ([], [])

/-- A trivial sklearn query function (returns no neighbours). -/
def skNone : SkIdx → List ℝ → ℕ → List ℝ × List ℕ := fun _ _ _ => ([], [])

def mdl0 : Metadata := [("id", Val.vnat 0)]
def mdl1 : Metadata := [("id", Val.vnat 1)]

/-- The store obtained by adding one document to a fresh numpy store with
`embOne`. -/
def stNp : Store :=
  { index := some (.nIdx [[1]]), metadata := [mdl0], dimension := some 1,
    backend := .numpy, skEmb := none }

/-- The store obtained by adding one document to a fresh sklearn store
with `embOne`. -/
def stSk : Store :=
  { index := some (.sIdx ⟨[[1]]⟩), metadata := [mdl0], dimension := some 1,
    backend := .sklearn, skEmb := some [[1]] }

/-- A numpy store holding two identical documents (the tie instance). -/
def stTie : Store :=
  { index := some (.nIdx [[1], [1]]), metadata := [mdl0, mdl1], dimension := some 1,
    backend := .numpy, skEmb := none }

/-- The sample log line of the specification. -/
def sampleLine : String :=
  "2025-12-18T01:59:40.205469Z - ERROR - Component=LogIngestor - Code=E_DB_FAIL - Severity=HIGH - Message=disk full - App=Unigy"

def lineA : String :=
  "2025-01-01T00:00:00Z - ERROR - Component=DB - Code=E1 - Message=timeout occurred"

def lineB : String := "2025-01-01T00:00:01Z - INFO - ok"

def twoLines : String := lineA ++ "\n" ++ lineB

deriving instance DecidableEq for Except

/-! ### Claim theorems -/

/-- C1: evaluation of `add_documents` at the failing input.  Two
successive one-document batches raise `size()` from 0 to 2 under the
faiss, sklearn and numpy backends, and the first annoy batch raises it to
1; but the second batch under the annoy backend raises an exception
instead of increasing `size()` by the batch length: `_add_annoy`
renumbers the new items from 0 and calls `add_item`/`build` on an
already-built index, which the annoy library refuses. -/
theorem add_documents_batch_sizes :
    (foldAdds embOne (freshStore .faiss) [(["a"], [mdl0]), (["b"], [mdl1])]).map size
        = .ok 2 ∧
    (foldAdds embOne (freshStore .sklearn) [(["a"], [mdl0]), (["b"], [mdl1])]).map size
        = .ok 2 ∧
    (foldAdds embOne (freshStore .numpy) [(["a"], [mdl0]), (["b"], [mdl1])]).map size
        = .ok 2 ∧
    (foldAdds embOne (freshStore .annoy) [(["a"], [mdl0])]).map size = .ok 1 ∧
    foldAdds embOne (freshStore .annoy) [(["a"], [mdl0]), (["b"], [mdl1])]
        = .error "You can't add an item to a built index" :=
  ⟨rfl, rfl, rfl, rfl, rfl⟩

/-- C2: evaluation of the save/load round trip.  Under the numpy backend
reloading the saved dictionary into a fresh store restores the exact
state, hence `size()` and `search` agree; under the sklearn backend the
`self.embeddings` attribute is not part of the saved dictionary, so the
reloaded store reports `size() = 0` instead of 1 and `search` raises an
`AttributeError`. -/
theorem save_load_roundtrip_eval :
    foldAdds embOne (freshStore .numpy) [(["a"], [mdl0])] = .ok stNp ∧
    loadIndex (freshStore .numpy) (some (saveIndex stNp)) = stNp ∧
    size (loadIndex (freshStore .numpy) (some (saveIndex stNp))) = size stNp ∧
    searchFlex embOne annNone skNone
        (loadIndex (freshStore .numpy) (some (saveIndex stNp))) "q" 5 none
      = searchFlex embOne annNone skNone stNp "q" 5 none ∧
    foldAdds embOne (freshStore .sklearn) [(["a"], [mdl0])] = .ok stSk ∧
    size stSk = 1 ∧
    size (loadIndex (freshStore .sklearn) (some (saveIndex stSk))) = 0 ∧
    searchFlex embOne annNone skNone
        (loadIndex (freshStore .sklearn) (some (saveIndex stSk))) "q" 1 none
      = .error "AttributeError: object has no attribute embeddings" :=
  ⟨rfl, rfl, rfl, rfl, rfl, rfl, rfl, rfl⟩

/-- C3: `_init_backend` probes faiss, annoy, sklearn, numpy in that fixed
order; it returns exactly the first backend whose initializer succeeds,
and raises `ImportError("No vector store backend available!")` exactly
when every probe fails. -/
theorem init_backend_priority :
    ∀ avail : Backend → Bool,
      (∀ b, initBackend avail = .ok b ↔
        (avail b = true ∧ ∀ b2, priority b2 < priority b → avail b2 = false)) ∧
      (initBackend avail = .error "No vector store backend available!" ↔
        ∀ b, avail b = false) := by
  decide

/-- C3 witness: with only sklearn importable the probe selects sklearn,
and with nothing available construction fails fatally. -/
theorem init_backend_priority_inst :
    initBackend (fun b => decide (b = Backend.sklearn)) = .ok .sklearn ∧
    initBackend (fun _ => false) = .error "No vector store backend available!" :=
  ⟨((init_backend_priority _).1 _).mpr (by decide),
   (init_backend_priority _).2.mpr (fun _ => rfl)⟩

/-- C4: evaluation of `add_fix` at the failing input.  Starting from the
three seeded entries (vector index size 3 after construction), `add_fix`
appends the fourth entry and re-submits every entry to
`VectorStore.add_documents`, which only ever appends: the index ends with
3 + 4 = 7 documents, not one document per entry (4). -/
theorem kb_add_fix_reindex_eval :
    (kbInit embOne).map (fun kb => (kb.entries.length, vsSize kb.vs)) = .ok (3, 3) ∧
    ((kbInit embOne).bind (fun kb => kbAddFix embOne kb "I" "R" "S" ["C"] ["t"])).map
        (fun kb => (kb.entries.length, vsSize kb.vs)) = .ok (4, 7) ∧
    ¬ (7 = 4) :=
  ⟨rfl, rfl, by decide⟩

/-- C5: `find_exact_matches` returns exactly the lines of the log text
that contain the query as a case-insensitive substring and the literal
token `ERROR`; and whenever that set is non-empty, `process_query` skips
the similarity fallback: the returned `similar_errors` is empty and the
selected `error_lines` are the exact matches themselves. -/
theorem exact_match_characterization :
    (∀ q t l, l ∈ findExactMatches q t ↔
        l ∈ pySplitLines t ∧ strIn (pyLower q) (pyLower l) = true ∧
          strIn "ERROR" l = true) ∧
    (∀ q t fc, findExactMatches q t ≠ [] →
        (processQuery q (some t) fc).map (fun o => o.similarErrors) = .ok [] ∧
        (processQuery q (some t) fc).map (fun o => o.exactMatches)
          = .ok (findExactMatches q t) ∧
        errorLines q t = findExactMatches q t) := by
  constructor
  · intro q t l
    simp [findExactMatches, List.mem_filter]
  · intro q t fc hne
    have he : (findExactMatches q t).isEmpty = false := by
      simpa [List.isEmpty_iff] using hne
    refine ⟨?_, ?_, ?_⟩ <;>
      simp [processQuery, errorLines, he, Except.map]

/-- C5 witness: the spec scenario — query `timeout` against an `ERROR`
line containing it plus an `INFO` line yields exactly the `ERROR` line as
an exact match and an empty similarity fallback. -/
theorem exact_match_scenario :
    findExactMatches "timeout" twoLines = [lineA] ∧
    (lineA ∈ findExactMatches "timeout" twoLines) ∧
    (processQuery "timeout" (some twoLines) 0).map (fun o => o.similarErrors)
      = .ok [] ∧
    (processQuery "timeout" (some twoLines) 0).map (fun o => o.exactMatches)
      = .ok (findExactMatches "timeout" twoLines) ∧
    errorLines "timeout" twoLines = findExactMatches "timeout" twoLines := by
  refine ⟨by decide, ?_, ?_⟩
  · exact (exact_match_characterization.1 "timeout" twoLines lineA).mpr
      (by refine ⟨?_, ?_, ?_⟩ <;> decide)
  · exact exact_match_characterization.2 "timeout" twoLines 0 (by decide)

/-- C6 counterexample: the numpy backend does not keep insertion order
for equal similarities.  With two identical documents (equal similarity
to any query), `np.argsort(...)[-top_k:][::-1]` reverses the stable
ascending order, and the final stable descending sort keeps that reversed
order: the result lists document 1 before document 0, not the insertion
order 0, 1. -/
theorem numpy_tie_order_reversed :
    (searchFlex embOne annNone skNone stTie "q" 2 none).map (List.map Prod.snd)
      = .ok [mdl1, mdl0] ∧
    mdl0 ≠ mdl1 ∧
    ¬ (searchFlex embOne annNone skNone stTie "q" 2 none).map (List.map Prod.snd)
      = .ok [mdl0, mdl1] := by
  have h1 : (searchFlex embOne annNone skNone stTie "q" 2 none).map (List.map Prod.snd)
      = .ok [mdl1, mdl0] := by
    simp [searchFlex, stTie, numpySims, pyArgsortAsc, pyLastSlice, sortOrd, insOrd,
      formatResults, passesFilter, embOne, annNone, skNone, List.enum, List.enumFrom,
      le_refl, Except.map]
  refine ⟨h1, by decide, ?_⟩
  rw [h1]
  intro h2
  have := (Except.ok.inj h2)
  simp [mdl0, mdl1] at this

/-- C6 (amended): under every backend the result of `search` is sorted
descending by similarity; under the numpy backend a zero-norm query (or
document) gets the defined similarity 0, so every returned score is 0
when the query has zero norm; but documents with equal similarity appear
in the reverse of their insertion order (shown at the two-document
instance), not in insertion order as claimed. -/
theorem numpy_search_ranking :
    (∀ es annQ skQ st q k filt r, searchFlex es annQ skQ st q k filt = .ok r →
        r.Chain' (fun x y : ℝ × Metadata => y.1 ≤ x.1)) ∧
    (∀ es annQ skQ (st : Store) q k filt r m, st.backend = .numpy →
        st.index = some (.nIdx m) → normR (es.f q) = 0 →
        searchFlex es annQ skQ st q k filt = .ok r → ∀ p ∈ r, p.1 = 0) ∧
    (searchFlex embOne annNone skNone stTie "q" 2 none).map (List.map Prod.snd)
      = .ok [mdl1, mdl0] := by
  refine ⟨?_, ?_, ?_⟩
  · intro es annQ skQ st q k filt r h
    exact searchFlex_sorted es annQ skQ st q k filt r h
  · intro es annQ skQ st q k filt r m hb hidx hq0 h
    exact searchFlex_numpy_zero es annQ skQ st q k filt r m hb hidx hq0 h
  · simp [searchFlex, stTie, numpySims, pyArgsortAsc, pyLastSlice, sortOrd, insOrd,
      formatResults, passesFilter, embOne, annNone, skNone, List.enum, List.enumFrom,
      le_refl, Except.map]

/-- C6 witness: the sortedness part applied to a concrete empty search,
and the zero-norm part applied to a one-document numpy store with the
zero embedding, forcing the concrete returned score to be 0. -/
theorem numpy_search_ranking_inst :
    List.Chain' (fun x y : ℝ × Metadata => y.1 ≤ x.1) ([] : List (ℝ × Metadata)) ∧
    (if normR [(0 : ℝ)] = 0 ∨ normR [(1 : ℝ)] = 0 then (0 : ℝ)
      else dotProd [0] [1] / (normR [0] * normR [1])) = 0 := by
  constructor
  · exact numpy_search_ranking.1 embOne annNone skNone (freshStore .numpy)
      "q" 1 none [] rfl
  · have h := numpy_search_ranking.2.1 embZero annNone skNone stNp "q" 1 none
      [((if normR [(0 : ℝ)] = 0 ∨ normR [(1 : ℝ)] = 0 then (0 : ℝ)
          else dotProd [0] [1] / (normR [0] * normR [1])), mdl0)]
      [[1]] rfl rfl (by simp [normR, embZero]) rfl
    exact h _ (List.mem_singleton.mpr rfl)

/-- C7 counterexample: with `top_k = 0` the numpy backend returns every
stored document, because the Python slice `[-0:]` is the whole list; the
claim's bound `min(top_k, size()) = 0` is violated on a one-document
store. -/
theorem search_topk_zero_violation :
    (searchFlex embOne annNone skNone stNp "q" 0 none).map List.length = .ok 1 ∧
    size stNp = 1 ∧
    ¬ (1 ≤ min 0 (size stNp)) :=
  ⟨rfl, rfl, by decide⟩

/-- C7 (amended): for `top_k ≥ 1` every backend returns at most
`min(top_k, size())` results (the annoy and sklearn neighbour queries are
constrained by their library contracts), and searching any reachable
store with `size() = 0` returns the empty sequence; the original bound
fails only at `top_k = 0` under the numpy backend. -/
theorem search_topk_bound :
    (∀ es annQ skQ st q k filt r,
      (∀ a v k2, ((annQ a v k2).1).length ≤ min k2 a.nItems) →
      (∀ si v n, ((skQ si v n).2).length ≤ n) →
      1 ≤ k → searchFlex es annQ skQ st q k filt = .ok r →
      r.length ≤ min k (size st)) ∧
    (∀ es annQ skQ st q k filt, Reachable st → size st = 0 →
      searchFlex es annQ skQ st q k filt = .ok []) := by
  constructor
  · intro es annQ skQ st q k filt r hann hsk hk h
    exact searchFlex_length es annQ skQ st q k filt r hann hsk hk h
  · intro es annQ skQ st q k filt hr hz
    exact searchFlex_of_empty_meta es annQ skQ st q k filt
      (reachable_size_zero st hr hz)

/-- C7 witness: both parts applied to a freshly constructed (hence empty
and reachable) numpy store with `top_k = 1`. -/
theorem search_topk_bound_inst :
    ([] : List (ℝ × Metadata)).length ≤ min 1 (size (freshStore .numpy)) ∧
    searchFlex embOne annNone skNone (freshStore .numpy) "q" 1 none = .ok [] := by
  constructor
  · exact search_topk_bound.1 embOne annNone skNone (freshStore .numpy) "q" 1 none []
      (fun a v k2 => by simp [annNone]) (fun si v n => by simp [skNone])
      (by decide) rfl
  · exact search_topk_bound.2 embOne annNone skNone (freshStore .numpy) "q" 1 none
      ⟨embOne, .numpy, [], rfl⟩ rfl

/-- C8: every result of a filtered `_format_results` call agrees with the
filter on every filter key; and filtering is applied after retrieval, so
on a two-document store (equal similarities) with `top_k = 2` and a
filter matching only one document, the search returns 1 < 2 results even
though the index holds 2 ≥ `top_k` documents. -/
theorem filter_correctness :
    (∀ meta scores indices f p kv, p ∈ formatResults meta scores indices (some f) →
      kv ∈ f → mget p.2 kv.1 = kv.2) ∧
    (searchFlex embOne annNone skNone stTie "q" 2 (some [("id", Val.vnat 0)])).map
        List.length = .ok 1 ∧
    size stTie = 2 ∧ (1 : ℕ) < 2 := by
  refine ⟨?_, ?_, rfl, by decide⟩
  · intro meta scores indices f p kv hp hkv
    have hpass := (formatResults_mem meta scores indices (some f) p hp).2.1
    simp only [passesFilter, List.all_eq_true, decide_eq_true_eq] at hpass
    exact hpass kv hkv
  · simp [searchFlex, stTie, numpySims, pyArgsortAsc, pyLastSlice, sortOrd, insOrd,
      formatResults, passesFilter, mget, embOne, annNone, skNone, List.enum,
      List.enumFrom, le_refl, Except.map]

/-- C8 witness: the filter-agreement part applied to a concrete filtered
formatting call. -/
theorem filter_correctness_inst : mget mdl0 "id" = Val.vnat 0 := by
  refine filter_correctness.1 [mdl0] [(0 : ℝ)] [0] [("id", Val.vnat 0)]
    ((0 : ℝ), mdl0) ("id", Val.vnat 0) ?_ (by decide)
  have h : formatResults [mdl0] [(0 : ℝ)] [0] (some [("id", Val.vnat 0)])
      = [((0 : ℝ), mdl0)] := rfl
  rw [h]
  exact List.mem_singleton.mpr rfl

/-- C10: `_format_results` never reads metadata out of bounds: every
returned pair's metadata is an element of the store's metadata list, and
candidate indices at or beyond the metadata length are silently dropped —
a batch of only such indices formats to the empty result. -/
theorem format_results_safety :
    (∀ meta scores indices filt p, p ∈ formatResults meta scores indices filt →
        p.2 ∈ meta) ∧
    (∀ meta scores indices filt, (∀ i ∈ indices, meta.length ≤ i) →
        formatResults meta scores indices filt = []) := by
  constructor
  · intro meta scores indices filt p hp
    exact (formatResults_mem meta scores indices filt p hp).1
  · intro meta scores indices filt h
    exact formatResults_dropAll meta scores indices filt h

/-- C10 witness: a formatting call mixing one valid and one out-of-range
index keeps metadata inside the list, and a call with only out-of-range
indices returns nothing. -/
theorem format_results_safety_inst :
    mdl0 ∈ [mdl0] ∧ formatResults [mdl0] [(0 : ℝ), 0] [5, 7] none = [] := by
  constructor
  · refine format_results_safety.1 [mdl0] [(0 : ℝ), 0] [0, 5] none ((0 : ℝ), mdl0) ?_
    have h : formatResults [mdl0] [(0 : ℝ), 0] [0, 5] none = [((0 : ℝ), mdl0)] := rfl
    rw [h]
    exact List.mem_singleton.mpr rfl
  · exact format_results_safety.2 [mdl0] [(0 : ℝ), 0] [5, 7] none (by decide)

/-- C9: `parse_line` succeeds exactly on the stripped lines admitting a
decomposition into the top-level grammar (timestamp-class run, literal
`Z`, separators, level word, separator, non-empty tail), and returns
`None` on every other line.  On success, the component defaults to
`"Unknown"`, the error code to `None`, and the message to the whole
captured tail whenever the respective `Component=`/`Code=`/`Message=`
sub-pattern is absent; a present sub-pattern yields a captured maximal
class run occurring right after the literal.  The spec's sample line
parses to component `LogIngestor`, error code `E_DB_FAIL`, level
`ERROR`. -/
theorem parse_line_grammar :
    (∀ line zone client app version,
      (parseLine line zone client app version).isSome ↔
        TopGrammar (pyStripChars line.toList)) ∧
    (∀ line zone client app version m,
      topParse (pyStripChars line.toList) = some m →
      ∃ e, parseLine line zone client app version = some e ∧
        e.timestamp = String.mk m.ts ∧ e.log_level = String.mk m.lvl ∧
        e.raw_line = String.mk (pyStripChars line.toList) ∧
        (¬ HasPat compLit compCls m.fm → e.component = "Unknown") ∧
        (∀ cap, searchPat compLit compCls m.fm = some cap →
          e.component = String.mk cap ∧ CapSpec compLit compCls m.fm cap) ∧
        (¬ HasPat codeLit codeCls m.fm → e.error_code = none) ∧
        (∀ cap, searchPat codeLit codeCls m.fm = some cap →
          e.error_code = some (String.mk cap) ∧ CapSpec codeLit codeCls m.fm cap) ∧
        (¬ HasPat msgLit msgCls m.fm → e.message = String.mk m.fm) ∧
        (∀ cap, searchPat msgLit msgCls m.fm = some cap →
          e.message = String.mk (pyStripChars cap) ∧ CapSpec msgLit msgCls m.fm cap)) ∧
    parseLine sampleLine "z" "c" "a" "v" = some
      { timestamp := "2025-12-18T01:59:40.205469Z", log_level := "ERROR",
        component := "LogIngestor", error_code := some "E_DB_FAIL",
        message := "disk full", zone := "z", client := "c", app := "a",
        version := "v", raw_line := sampleLine } := by
  refine ⟨?_, ?_, by decide⟩
  · intro line zone client app version
    constructor
    · intro hsome
      cases ht : topParse (pyStripChars line.toList) with
      | none =>
        unfold parseLine at hsome
        rw [ht] at hsome
        simp at hsome
      | some m => exact topParse_some_grammar _ m ht
    · intro hg
      obtain ⟨m, hm⟩ := topGrammar_topParse _ (pyStripChars_last line.toList) hg
      unfold parseLine
      rw [hm]
      simp
  · intro line zone client app version m htop
    have hp : parseLine line zone client app version = some
        { timestamp := String.mk m.ts
          log_level := String.mk m.lvl
          component := match searchPat compLit compCls m.fm with
            | some cap => String.mk cap
            | none => "Unknown"
          error_code := (searchPat codeLit codeCls m.fm).map String.mk
          message := match searchPat msgLit msgCls m.fm with
            | some cap => String.mk (pyStripChars cap)
            | none => String.mk m.fm
          zone := zone, client := client, app := app, version := version
          raw_line := String.mk (pyStripChars line.toList) } := by
      unfold parseLine
      rw [htop]
    refine ⟨_, hp, rfl, rfl, rfl, ?_, ?_, ?_, ?_, ?_, ?_⟩
    · intro hn
      have hnone : searchPat compLit compCls m.fm = none :=
        (searchPat_none_iff compLit compCls m.fm).mpr hn
      simp [hnone]
    · intro cap hc
      refine ⟨?_, searchPat_some_spec _ _ _ _ hc⟩
      simp [hc]
    · intro hn
      have hnone : searchPat codeLit codeCls m.fm = none :=
        (searchPat_none_iff codeLit codeCls m.fm).mpr hn
      simp [hnone]
    · intro cap hc
      refine ⟨?_, searchPat_some_spec _ _ _ _ hc⟩
      simp [hc]
    · intro hn
      have hnone : searchPat msgLit msgCls m.fm = none :=
        (searchPat_none_iff msgLit msgCls m.fm).mpr hn
      simp [hnone]
    · intro cap hc
      refine ⟨?_, searchPat_some_spec _ _ _ _ hc⟩
      simp [hc]

/-- C9 witness: the grammar direction applied to the sample line through
an explicit decomposition, and the component default applied to a
grammatical line whose tail has no `Component=` field. -/
theorem parse_line_grammar_inst :
    (parseLine sampleLine "z" "c" "a" "v").isSome ∧
    (parseLine "2025Z - ERROR - hello world" "z" "c" "a" "v").map
      (fun e => e.component) = some "Unknown" := by
  constructor
  · refine (parse_line_grammar.1 sampleLine "z" "c" "a" "v").mpr
      ⟨"2025-12-18T01:59:40.205469".toList, [' '], [' '], "ERROR".toList,
        [' '], [' '],
        "Component=LogIngestor - Code=E_DB_FAIL - Severity=HIGH - Message=disk full - App=Unigy".toList,
        [], ?_, ?_, ?_, ?_, ?_, ?_, ?_, ?_, ?_, ?_, ?_, ?_, ?_, ?_, ?_⟩ <;> decide
  · obtain ⟨e, he, -, -, -, hcomp, -⟩ := parse_line_grammar.2.1
      "2025Z - ERROR - hello world" "z" "c" "a" "v"
      ⟨"2025Z".toList, "ERROR".toList, "hello world".toList⟩ (by decide)
    rw [he]
    have hu := hcomp ((searchPat_none_iff compLit compCls _).mp (by decide))
    simp [hu]

end LogRCA
